import Mathlib

/-
Verification of the reactive UI runtime in src/core/core.js (mirrored by
src/core/olova.js): the signal/effect/memo reactive core, the element
builder `html`, the dynamic child binder, and the mounting function
`render`.  Machine state (the process-wide `currentEffect` slot, signal
stores, subscriber sets, the DOM) is modelled by explicit state passing;
JavaScript exceptions are modelled with `Except String`; `console.error`
reports are modelled by an append-only log.
-/

set_option autoImplicit false

namespace Olova

/-- JavaScript primitive values as far as the runtime inspects them. -/
inductive JVal where
  | undef
  | jnull
  | bool (b : Bool)
  | num (n : Int)
  | str (s : String)
deriving DecidableEq

/-- JavaScript `String(v)` coercion on the primitive values above. -/
def jstr : JVal → String
  | .undef => "undefined"
  | .jnull => "null"
  | .bool true => "true"
  | .bool false => "false"
  | .num n => toString n
  | .str s => s

/-- JavaScript truthiness test (`!v` is `jfalsy v`). -/
def jfalsy : JVal → Bool
  | .undef => true
  | .jnull => true
  | .bool b => !b
  | .num n => n == 0
  | .str s => s == ""

/-- JavaScript `v + 1` on a numeric counter variable (`n++`). -/
def jinc : JVal → JVal
  | .num n => .num (n + 1)
  | _ => (.undef)

/-- Numeric addition, used to build concrete compute functions in tests. -/
def jadd : JVal → JVal → JVal
  | .num a, .num b => .num (a + b)
  | _, _ => (.undef)

/-- Expressions that an effect/memo callback can evaluate: literals,
signal reads (which subscribe the current effect, core.js line 9), pure
host computations that may throw, and `throw` itself.  This is the space
of user callbacks that the theorems quantify over. -/
inductive Expr where
  | lit (v : JVal)
  | readSig (i : Nat)
  | appE (f : JVal → Except String JVal) (a : Expr)
  | appE2 (f : JVal → JVal → Except String JVal) (a b : Expr)
  | throwE (msg : String)

/-- Statements of an effect body: sequencing, expression evaluation,
signal writes (literal or updater), `n++` on a captured variable, and the
try/catch-log-rethrow block that `setMemo` wraps around its write. -/
inductive Prog where
  | skip
  | seq (a b : Prog)
  | expr (e : Expr)
  | writeVal (i : Nat) (e : Expr)
  | writeFn (i : Nat) (f : JVal → Except String JVal)
  | incVar (j : Nat)
  | catchLog (msgPre : String) (p : Prog)

/--
State of the reactive core.  `store` holds the current value of each
signal created so far (a signal is identified by its creation index, which
models the closure identity of its accessor pair in core.js).  `subs`
holds each signal's subscriber set: the JS `Set` of effect closures is
modelled as a duplicate-free list of effect ids in insertion order.
`effects` registers the body of each effect created by `setEffect` (the
`runEffect` closure of effect `e` is modelled by running `effects[e]`).
`vars` models plain mutable JS variables captured by closures (such as the
counter `n` in the spec's round-trip test).  `currentEffect` is the
process-wide current-effect slot.  `log` collects `console.error` reports.
`trace` is ghost instrumentation recording, in order, the ids of the
effect-run closures that have been invoked; it lets theorems speak about
"the effect was invoked exactly once".
-/
structure St where
  store : List JVal
  subs : List (List Nat)
  effects : List Prog
  vars : List JVal
  currentEffect : Option Nat
  log : List String
  trace : List Nat

/-- The argument of the write accessor: `typeof newValue === "function"`
distinguishes a plain value from an updater function (core.js line 19). -/
inductive WArg where
  | valueArg (v : JVal)
  | fnArg (f : JVal → Except String JVal)

/-- Translation of core.js line 19: `typeof newValue === "function" ? newValue(initialValue)
: newValue`.  An updater may throw. -/
def applyWArg : WArg → JVal → Except String JVal
  | .valueArg v, _ => .ok v
  | .fnArg f, cur => f cur

/-- Append a `console.error` report. -/
def addLog (m : String) (s : St) : St :=
  { s with log := s.log ++ [m] }

/-- Model of `Set.add`: identity-keyed, no duplicates, insertion order. -/
def addSub (e : Nat) (l : List Nat) : List Nat :=
  if e ∈ l then l else l ++ [e]

/--
The read accessor of signal `i` (core.js lines 7-15): if an effect is
current, add it to the subscriber set; return the current value.  The JS
try/catch around this body is dead (neither step can throw), so the model
is total.
-/
def readSignal (i : Nat) (s : St) : JVal × St :=
  match s.currentEffect with
  | some e =>
    (s.store.getD i .undef, { s with subs := s.subs.set i (addSub e (s.subs.getD i [])) })
  | none => (s.store.getD i .undef, s)

/-- Evaluate an expression in the current state.  Signal reads go through
`readSignal` and hence subscribe the current effect. -/
def evalExpr : Expr → St → Except String JVal × St
  | .lit v, s => (.ok v, s)
  | .readSig i, s =>
    match readSignal i s with
    | (v, s') => (.ok v, s')
  | .appE f a, s =>
    match evalExpr a s with
    | (.ok v, s') => (f v, s')
    | (.error m, s') => (.error m, s')
  | .appE2 f a b, s =>
    match evalExpr a s with
    | (.ok va, s1) =>
      match evalExpr b s1 with
      | (.ok vb, s2) => (f va vb, s2)
      | (.error m, s2) => (.error m, s2)
    | (.error m, s1) => (.error m, s1)
  | .throwE m, s => (.error m, s)

/--
The subscriber fan-out of the write accessor (core.js lines 20-26):
`[...subscribers].forEach(fn => { try { fn() } catch (e) { console.error(
"Error in signal subscriber:", e) } })`.  `runEff` is the semantics of
invoking one effect-run closure (instantiated below with `runEffectFuel`).
-/
def runSubscribersWith (runEff : Nat → St → Except String JVal × St) :
    List Nat → St → St
  | [], s => s
  | e :: rest, s =>
    match runEff e s with
    | (.ok _, t) => runSubscribersWith runEff rest t
    | (.error m, t) =>
      runSubscribersWith runEff rest (addLog ("Error in signal subscriber: " ++ m) t)

/--
The write accessor of a signal (core.js lines 16-32): replace the value
(literal, or updater applied to the current value), then invoke every
subscriber, then return the closed-over `initialValue` (re-read, since a
subscriber may have written the signal again).  If the updater throws, the
assignment does not happen; the setter's catch logs and rethrows, so the
value is unchanged and no subscriber runs.
-/
def writeSignalWith (runEff : Nat → St → Except String JVal × St)
    (i : Nat) (a : WArg) (s : St) : Except String JVal × St :=
  match applyWArg a (s.store.getD i .undef) with
  | .error m => (.error m, addLog ("Error in signal setter: " ++ m) s)
  | .ok v =>
    let s1 : St := { s with store := s.store.set i v }
    let s2 := runSubscribersWith runEff (s1.subs.getD i []) s1
    (.ok (s2.store.getD i .undef), s2)

/-- Run an effect body.  `runEff` again stands for invocation of a nested
effect-run closure triggered by a write inside the body. -/
def runProgWith (runEff : Nat → St → Except String JVal × St) :
    Prog → St → Except String JVal × St
  | .skip, s => (.ok .undef, s)
  | .seq a b, s =>
    match runProgWith runEff a s with
    | (.ok _, s') => runProgWith runEff b s'
    | (.error m, s') => (.error m, s')
  | .expr e, s => evalExpr e s
  | .writeVal i e, s =>
    match evalExpr e s with
    | (.ok v, s') => writeSignalWith runEff i (.valueArg v) s'
    | (.error m, s') => (.error m, s')
  | .writeFn i f, s => writeSignalWith runEff i (.fnArg f) s
  | .incVar j, s =>
    (.ok .undef, { s with vars := s.vars.set j (jinc (s.vars.getD j .undef)) })
  | .catchLog pre p, s =>
    match runProgWith runEff p s with
    | (.ok v, s') => (.ok v, s')
    | (.error m, s') => (.error m, addLog (pre ++ m) s')

/--
The `runEffect` closure of effect `e` (core.js lines 37-48): set
`currentEffect` to itself, run the body, clear `currentEffect` to null
(note: cleared, not restored) on both success and failure; on failure log
"Error in effect:" and rethrow.  `fuel` bounds the depth of reentrant
effect invocation (a write inside an effect body can re-enter; the JS
code recurses unboundedly there, see spec section 9); out of fuel is a
model artifact and every theorem supplies sufficient fuel.  The ghost
`trace` records the invocation.
-/
def runEffectFuel : Nat → Nat → St → Except String JVal × St
  | 0 => fun _ s => (.error "[model] out of fuel", s)
  | fuel + 1 => fun e s =>
    let s0 : St := { s with currentEffect := some e, trace := s.trace ++ [e] }
    let r := runProgWith (runEffectFuel fuel) (s0.effects.getD e .skip) s0
    match r.1 with
    | .ok v => (.ok v, { r.2 with currentEffect := none })
    | .error m =>
      (.error m, addLog ("Error in effect: " ++ m) { r.2 with currentEffect := none })

/-- The write accessor at a given reentrancy budget. -/
def writeSignal (fuel : Nat) (i : Nat) (a : WArg) (s : St) :
    Except String JVal × St :=
  writeSignalWith (runEffectFuel fuel) i a s

/-- Model of `setSignal(initialValue)` (core.js lines 4-34): allocate a fresh cell
with an empty subscriber set and hand back its identity (standing for the
`[getter, setter]` closure pair). -/
def setSignal (init : JVal) (s : St) : Nat × St :=
  (s.store.length, { s with store := s.store ++ [init], subs := s.subs ++ [[]] })

/--
Model of `setEffect(effectFunction)` (core.js lines 36-54): build the `runEffect`
closure (here: register the body and obtain id `e`), invoke it once
immediately, and swallow (log only) a failure of this first invocation:
`try { runEffect() } catch (e) { console.error("Error initializing effect:", e) }`.
-/
def setEffect (fuel : Nat) (body : Prog) (s : St) : St :=
  let e := s.effects.length
  let s1 : St := { s with effects := s.effects ++ [body] }
  match runEffectFuel fuel e s1 with
  | (.ok _, t) => t
  | (.error m, t) => addLog ("Error initializing effect: " ++ m) t

/--
Model of `setMemo(memoFunction)` (core.js lines 56-72): `[get, set] = setSignal()`;
`setEffect(() => { try { set(memoFunction()) } catch (e) {
console.error("Error in memo function:", e); throw e } })`; return `get`.
The outer try/catch of `setMemo` is dead code (both calls above return
normally), so the model omits it.
-/
def setMemo (fuel : Nat) (e : Expr) (s : St) : Nat × St :=
  match setSignal .undef s with
  | (m, s1) =>
    (m, setEffect fuel (.catchLog "Error in memo function: " (.writeVal m e)) s1)

/-- Concatenation of the images of a list-valued function (used to state
log deltas of a subscriber fan-out). -/
def concatMap {α β : Type} (f : α → List β) : List α → List β
  | [] => []
  | a :: l => f a ++ concatMap f l

theorem getD_set_self {α : Type} (l : List α) (i : Nat) (a d : α)
    (h : i < l.length) : (l.set i a).getD i d = a := by
  induction l generalizing i with
  | nil => simp at h
  | cons x xs ih =>
    cases i with
    | zero => simp
    | succ n =>
      simp only [List.set, List.getD_cons_succ]
      exact ih n (by simpa using h)

theorem getD_set_ne {α : Type} (l : List α) (i j : Nat) (a d : α)
    (h : i ≠ j) : (l.set i a).getD j d = l.getD j d := by
  induction l generalizing i j with
  | nil => simp
  | cons x xs ih =>
    cases i with
    | zero =>
      cases j with
      | zero => exact absurd rfl h
      | succ m => simp
    | succ n =>
      cases j with
      | zero => simp
      | succ m =>
        simp only [List.set, List.getD_cons_succ]
        exact ih n m (by omega)

theorem getD_append_len {α : Type} (l : List α) (b d : α) :
    (l ++ [b]).getD l.length d = b := by
  induction l with
  | nil => simp
  | cons x xs ih => simp [ih]

theorem getD_all_eq {α : Type} (l : List α) (d : α) (j : Nat)
    (h : ∀ x ∈ l, x = d) : l.getD j d = d := by
  induction l generalizing j with
  | nil => simp
  | cons x xs ih =>
    cases j with
    | zero => simpa using h x (by simp)
    | succ n =>
      simp only [List.getD_cons_succ]
      exact ih n (fun y hy => h y (by simp [hy]))

theorem mem_addSub_self (e : Nat) (l : List Nat) : e ∈ addSub e l := by
  by_cases h : e ∈ l
  · simp [addSub, h]
  · simp [addSub, h]

theorem addSub_idem (e : Nat) (l : List Nat) :
    addSub e (addSub e l) = addSub e l := by
  show (if e ∈ addSub e l then addSub e l else addSub e l ++ [e]) = addSub e l
  rw [if_pos (mem_addSub_self e l)]

/-- The indices of the signals an expression reads (all of them: the
expression language has no branching, so every syntactic read executes). -/
def reads : Expr → List Nat
  | .lit _ => []
  | .readSig i => [i]
  | .appE _ a => reads a
  | .appE2 _ a b => reads a ++ reads b
  | .throwE _ => []

/-- The value (or thrown error) of an expression as a pure function of the
signal store.  `evalExpr` computes exactly this, plus subscriptions. -/
def exprOutcome (store : List JVal) : Expr → Except String JVal
  | .lit v => .ok v
  | .readSig i => .ok (store.getD i .undef)
  | .appE f a =>
    match exprOutcome store a with
    | .ok v => f v
    | .error m => .error m
  | .appE2 f a b =>
    match exprOutcome store a with
    | .ok va =>
      match exprOutcome store b with
      | .ok vb => f va vb
      | .error m => .error m
    | .error m => .error m
  | .throwE m => .error m

/-- A passive effect body performs no signal write (and hence invokes no
nested effect): it only reads, computes, bumps counters, or throws. -/
def passiveP : Prog → Bool
  | .skip => true
  | .seq a b => passiveP a && passiveP b
  | .expr _ => true
  | .writeVal _ _ => false
  | .writeFn _ _ => false
  | .incVar _ => true
  | .catchLog _ _ => false

/-- The result of a passive effect body as a pure function of the store. -/
def progOutcome (store : List JVal) : Prog → Except String JVal
  | .skip => .ok .undef
  | .seq a b =>
    match progOutcome store a with
    | .ok _ => progOutcome store b
    | .error m => .error m
  | .expr e => exprOutcome store e
  | .writeVal _ _ => .ok .undef
  | .writeFn _ _ => .ok .undef
  | .incVar _ => .ok .undef
  | .catchLog _ p => progOutcome store p

/-- The `console.error` reports produced by invoking subscriber `e` during
a write's fan-out: none on success; on failure, the effect's own report
followed by the fan-out's catch report. -/
def subFanLog (store : List JVal) (effs : List Prog) (e : Nat) : List String :=
  match progOutcome store (effs.getD e .skip) with
  | .ok _ => []
  | .error m => ["Error in effect: " ++ m, "Error in signal subscriber: " ++ m]

theorem getD_mem_or {α : Type} (l : List α) (n : Nat) (d : α) :
    l.getD n d ∈ l ∨ l.getD n d = d := by
  induction l generalizing n with
  | nil => simp
  | cons x xs ih =>
    cases n with
    | zero => simp
    | succ m =>
      rw [List.getD_cons_succ]
      rcases ih m with h | h
      · exact Or.inl (List.mem_cons_of_mem x h)
      · exact Or.inr h

/-- Components of the state that a passive effect body leaves untouched
(everything except subscriber sets and plain variables). -/
def frameEq (s t : St) : Prop :=
  t.store = s.store ∧ t.effects = s.effects ∧ t.trace = s.trace ∧
  t.log = s.log ∧ t.currentEffect = s.currentEffect ∧
  t.subs.length = s.subs.length

theorem frameEq_refl (s : St) : frameEq s s :=
  ⟨rfl, rfl, rfl, rfl, rfl, rfl⟩

theorem frameEq_trans {s t u : St} (h1 : frameEq s t) (h2 : frameEq t u) :
    frameEq s u := by
  obtain ⟨hsto, heff, htra, hlg, hce, hsl⟩ := h1
  obtain ⟨ksto, keff, ktra, klg, kce, ksl⟩ := h2
  refine ⟨ksto.trans hsto, keff.trans heff, ktra.trans htra, ?_, ?_, ?_⟩
  · exact klg.trans hlg
  · exact kce.trans hce
  · exact ksl.trans hsl

theorem evalExpr_frame (e : Expr) (s : St) : frameEq s (evalExpr e s).2 := by
  induction e generalizing s with
  | lit v => exact frameEq_refl s
  | readSig i =>
    cases h : s.currentEffect with
    | none => simp [evalExpr, readSignal, h, frameEq_refl]
    | some ce => simp [evalExpr, readSignal, h, frameEq]
  | appE f a ih =>
    have hfa := ih s
    cases ha : evalExpr a s with
    | mk r s' =>
      rw [ha] at hfa
      cases r with
      | ok v => simpa [evalExpr, ha] using hfa
      | error m => simpa [evalExpr, ha] using hfa
  | appE2 f a b iha ihb =>
    have h1 := iha s
    cases ha : evalExpr a s with
    | mk r s1 =>
      rw [ha] at h1
      cases r with
      | error m => simpa [evalExpr, ha] using h1
      | ok va =>
        have h2 := ihb s1
        cases hb : evalExpr b s1 with
        | mk r2 s2 =>
          rw [hb] at h2
          cases r2 with
          | ok vb =>
            simpa [evalExpr, ha, hb] using frameEq_trans h1 h2
          | error m =>
            simpa [evalExpr, ha, hb] using frameEq_trans h1 h2
  | throwE m => exact frameEq_refl s

theorem evalExpr_outcome (e : Expr) (s : St) :
    (evalExpr e s).1 = exprOutcome s.store e := by
  induction e generalizing s with
  | lit v => rfl
  | readSig i =>
    cases h : s.currentEffect with
    | none => simp [evalExpr, readSignal, h, exprOutcome]
    | some ce => simp [evalExpr, readSignal, h, exprOutcome]
  | appE f a ih =>
    have h1 := ih s
    cases ha : evalExpr a s with
    | mk r s' =>
      rw [ha] at h1
      cases r with
      | ok v => simp [evalExpr, ha, exprOutcome, ← h1]
      | error m => simp [evalExpr, ha, exprOutcome, ← h1]
  | appE2 f a b iha ihb =>
    have h1 := iha s
    have hfa := evalExpr_frame a s
    cases ha : evalExpr a s with
    | mk r s1 =>
      rw [ha] at h1 hfa
      cases r with
      | error m => simp [evalExpr, ha, exprOutcome, ← h1]
      | ok va =>
        have h2 := ihb s1
        have hst : s1.store = s.store := hfa.1
        cases hb : evalExpr b s1 with
        | mk r2 s2 =>
          rw [hb] at h2
          rw [hst] at h2
          cases r2 with
          | ok vb => simp [evalExpr, ha, hb, exprOutcome, ← h1, ← h2]
          | error m => simp [evalExpr, ha, hb, exprOutcome, ← h1, ← h2]
  | throwE m => rfl

theorem runProgWith_passive (R : Nat → St → Except String JVal × St)
    (p : Prog) : ∀ s : St, passiveP p = true →
    (runProgWith R p s).1 = progOutcome s.store p ∧
    frameEq s (runProgWith R p s).2 := by
  induction p with
  | skip => exact fun s _ => ⟨rfl, frameEq_refl s⟩
  | seq a b iha ihb =>
    intro s hp
    simp only [passiveP, Bool.and_eq_true] at hp
    obtain ⟨oa, fa⟩ := iha s hp.1
    cases ha : runProgWith R a s with
    | mk r s' =>
      rw [ha] at oa fa
      cases r with
      | ok v =>
        obtain ⟨ob, fb⟩ := ihb s' hp.2
        have hst : s'.store = s.store := fa.1
        constructor
        · simp [runProgWith, ha, progOutcome, ← oa, ob, hst]
        · simp only [runProgWith, ha]
          exact frameEq_trans fa fb
      | error m =>
        constructor
        · simp [runProgWith, ha, progOutcome, ← oa]
        · simpa [runProgWith, ha] using fa
  | expr e => exact fun s _ => ⟨evalExpr_outcome e s, evalExpr_frame e s⟩
  | writeVal i e => intro s hp; simp [passiveP] at hp
  | writeFn i f => intro s hp; simp [passiveP] at hp
  | incVar j =>
    intro s _
    exact ⟨rfl, by simp [runProgWith, frameEq]⟩
  | catchLog pre q ih => intro s hp; simp [passiveP] at hp

/-- What `runEffect` does for a passive body: invoked (traced) once, the
body's pure outcome decides success, `currentEffect` ends cleared to none,
and a failure is reported as "Error in effect:". -/
theorem runEffectFuel_passive (F e : Nat) (s : St)
    (hp : passiveP (s.effects.getD e .skip) = true) :
    (runEffectFuel (F + 1) e s).1 = progOutcome s.store (s.effects.getD e .skip) ∧
    (runEffectFuel (F + 1) e s).2.store = s.store ∧
    (runEffectFuel (F + 1) e s).2.effects = s.effects ∧
    (runEffectFuel (F + 1) e s).2.trace = s.trace ++ [e] ∧
    (runEffectFuel (F + 1) e s).2.log = s.log ++
      (match progOutcome s.store (s.effects.getD e .skip) with
       | .ok _ => []
       | .error m => ["Error in effect: " ++ m]) ∧
    (runEffectFuel (F + 1) e s).2.currentEffect = none ∧
    (runEffectFuel (F + 1) e s).2.subs.length = s.subs.length := by
  have key := runProgWith_passive (runEffectFuel F) (s.effects.getD e .skip)
    { s with currentEffect := some e, trace := s.trace ++ [e] } hp
  cases h : runProgWith (runEffectFuel F) (s.effects.getD e .skip)
      { s with currentEffect := some e, trace := s.trace ++ [e] } with
  | mk r t =>
    rw [h] at key
    unfold frameEq at key
    obtain ⟨ho, hst, heff, htr, hlg, _hce, hsl⟩ := key
    dsimp only at ho hst heff htr hlg hsl
    cases r with
    | ok v =>
      have hunf : runEffectFuel (F + 1) e s =
          (.ok v, { t with currentEffect := none }) := by
        simp only [runEffectFuel]
        rw [h]
      refine ⟨?_, ?_, ?_, ?_, ?_, ?_, ?_⟩
      · rw [hunf]; exact ho
      · rw [hunf]; exact hst
      · rw [hunf]; exact heff
      · rw [hunf]; exact htr
      · rw [hunf, ← ho]; simp [hlg]
      · rw [hunf]
      · rw [hunf]; exact hsl
    | error m =>
      have hunf : runEffectFuel (F + 1) e s =
          (.error m, addLog ("Error in effect: " ++ m)
            { t with currentEffect := none }) := by
        simp only [runEffectFuel]
        rw [h]
      refine ⟨?_, ?_, ?_, ?_, ?_, ?_, ?_⟩
      · rw [hunf]; exact ho
      · rw [hunf]; exact hst
      · rw [hunf]; exact heff
      · rw [hunf]; exact htr
      · rw [hunf, ← ho]; simp [addLog, hlg]
      · rw [hunf]; rfl
      · rw [hunf]; exact hsl

/-- What the write accessor's fan-out does when every registered effect is
passive: every subscriber in the snapshot is invoked exactly once in
order, the store and effect registry are untouched, and each failing
subscriber contributes exactly its two reports to the log. -/
theorem runSubsWith_passive (F : Nat) (ids : List Nat) : ∀ s : St,
    (∀ p ∈ s.effects, passiveP p = true) →
    (runSubscribersWith (runEffectFuel (F + 1)) ids s).store = s.store ∧
    (runSubscribersWith (runEffectFuel (F + 1)) ids s).effects = s.effects ∧
    (runSubscribersWith (runEffectFuel (F + 1)) ids s).trace = s.trace ++ ids ∧
    (runSubscribersWith (runEffectFuel (F + 1)) ids s).log =
      s.log ++ concatMap (subFanLog s.store s.effects) ids ∧
    (runSubscribersWith (runEffectFuel (F + 1)) ids s).subs.length =
      s.subs.length := by
  induction ids with
  | nil => intro s _; simp [runSubscribersWith, concatMap]
  | cons e rest ih =>
    intro s hpass
    have hpe : passiveP (s.effects.getD e .skip) = true := by
      rcases getD_mem_or s.effects e .skip with h | h
      · exact hpass _ h
      · rw [h]; rfl
    obtain ⟨ho, hst, heff, htr, hlg, _hce, hsl⟩ := runEffectFuel_passive F e s hpe
    cases h : runEffectFuel (F + 1) e s with
    | mk r t =>
      rw [h] at ho hst heff htr hlg hsl
      dsimp only at ho hst heff htr hlg hsl
      have hpass' : ∀ p ∈ t.effects, passiveP p = true := by
        rw [heff]; exact hpass
      cases r with
      | ok v =>
        obtain ⟨i1, i2, i3, i4, i5⟩ := ih t hpass'
        have hrw : runSubscribersWith (runEffectFuel (F + 1)) (e :: rest) s =
            runSubscribersWith (runEffectFuel (F + 1)) rest t := by
          simp [runSubscribersWith, h]
        have hsf : subFanLog s.store s.effects e = [] := by
          unfold subFanLog
          rw [← ho]
        rw [hrw]
        refine ⟨?_, ?_, ?_, ?_, ?_⟩
        · rw [i1, hst]
        · rw [i2, heff]
        · rw [i3, htr]; simp
        · rw [i4, hlg, hst, heff, ← ho]
          simp [concatMap, hsf]
        · rw [i5, hsl]
      | error m =>
        obtain ⟨i1, i2, i3, i4, i5⟩ :=
          ih (addLog ("Error in signal subscriber: " ++ m) t) hpass'
        have hrw : runSubscribersWith (runEffectFuel (F + 1)) (e :: rest) s =
            runSubscribersWith (runEffectFuel (F + 1)) rest
              (addLog ("Error in signal subscriber: " ++ m) t) := by
          simp [runSubscribersWith, h]
        have hsf : subFanLog s.store s.effects e =
            ["Error in effect: " ++ m, "Error in signal subscriber: " ++ m] := by
          unfold subFanLog
          rw [← ho]
        rw [hrw]
        refine ⟨?_, ?_, ?_, ?_, ?_⟩
        · rw [i1]; exact hst
        · rw [i2]; exact heff
        · rw [i3]; rw [show (addLog ("Error in signal subscriber: " ++ m) t).trace = t.trace from rfl,
            htr]; simp
        · rw [i4]
          rw [show (addLog ("Error in signal subscriber: " ++ m) t).log =
              t.log ++ ["Error in signal subscriber: " ++ m] from rfl]
          rw [show (addLog ("Error in signal subscriber: " ++ m) t).store = t.store from rfl, hst]
          rw [show (addLog ("Error in signal subscriber: " ++ m) t).effects = t.effects from rfl, heff]
          rw [hlg, ← ho]
          simp [concatMap, hsf]
        · rw [i5]; exact hsl

theorem readSignal_val (i : Nat) (t : St) :
    (readSignal i t).1 = t.store.getD i .undef := by
  unfold readSignal
  cases t.currentEffect <;> rfl

/-- Shared characterization of a successful write when every registered
effect body is passive: the value is stored, the snapshot of the
subscriber set is invoked once each in order, the log records exactly the
failing subscribers' reports, and the stored value is returned. -/
theorem writeSignal_spec (F i : Nat) (s : St) (w : JVal) (a : WArg)
    (hpass : ∀ p ∈ s.effects, passiveP p = true)
    (hi : i < s.store.length)
    (ha : applyWArg a (s.store.getD i .undef) = .ok w) :
    (writeSignal (F + 1) i a s).1 = .ok w ∧
    (writeSignal (F + 1) i a s).2.store = s.store.set i w ∧
    (writeSignal (F + 1) i a s).2.effects = s.effects ∧
    (writeSignal (F + 1) i a s).2.trace = s.trace ++ s.subs.getD i [] ∧
    (writeSignal (F + 1) i a s).2.log = s.log ++
      concatMap (subFanLog (s.store.set i w) s.effects) (s.subs.getD i []) := by
  obtain ⟨k1, k2, k3, k4, k5⟩ := runSubsWith_passive F (s.subs.getD i [])
    { s with store := s.store.set i w } hpass
  have hunf : writeSignal (F + 1) i a s =
      (Except.ok ((runSubscribersWith (runEffectFuel (F + 1)) (s.subs.getD i [])
        { s with store := s.store.set i w }).store.getD i .undef),
       runSubscribersWith (runEffectFuel (F + 1)) (s.subs.getD i [])
        { s with store := s.store.set i w }) := by
    unfold writeSignal writeSignalWith
    rw [ha]
  refine ⟨?_, ?_, ?_, ?_, ?_⟩
  · rw [hunf]
    dsimp only
    rw [k1]
    dsimp only
    rw [getD_set_self s.store i w .undef hi]
  · rw [hunf]
    dsimp only
    rw [k1]
  · rw [hunf]
    dsimp only
    rw [k2]
  · rw [hunf]
    dsimp only
    rw [k3]
  · rw [hunf]
    dsimp only
    rw [k4]

/-- C1: every write to a signal synchronously invokes every effect in the
signal's subscriber set exactly once (the ghost trace grows by exactly
the duplicate-free snapshot, in order); a throwing subscriber is reported
to the log and does not prevent the remaining subscribers from being
invoked; and the write returns the newly stored value even when
subscribers throw.  Subscribers are assumed passive (they read and
compute but do not themselves write signals). -/
theorem write_fanout_exactly_once (F : Nat) (s : St) (i : Nat) (v : JVal)
    (hpass : ∀ p ∈ s.effects, passiveP p = true)
    (hnodup : (s.subs.getD i []).Nodup)
    (hi : i < s.store.length) :
    (writeSignal (F + 1) i (.valueArg v) s).1 = .ok v ∧
    (writeSignal (F + 1) i (.valueArg v) s).2.store = s.store.set i v ∧
    (writeSignal (F + 1) i (.valueArg v) s).2.trace =
      s.trace ++ s.subs.getD i [] ∧
    (writeSignal (F + 1) i (.valueArg v) s).2.log = s.log ++
      concatMap (subFanLog (s.store.set i v) s.effects) (s.subs.getD i []) ∧
    (s.subs.getD i []).Nodup := by
  obtain ⟨h1, h2, _h3, h4, h5⟩ :=
    writeSignal_spec F i s v (.valueArg v) hpass hi rfl
  exact ⟨h1, h2, h4, h5, hnodup⟩

/-- Witness state for C1: signal 0 holds 1 and has two subscribers, the
first of which throws. -/
def c1ws : St :=
  { store := [JVal.num 1], subs := [[0, 1]],
    effects := [.expr (.throwE "boom"), .incVar 0],
    vars := [JVal.num 0], currentEffect := none, log := [], trace := [] }

/-- C1 witness: the theorem applied at `c1ws`. -/
theorem write_fanout_exactly_once_witness :
    ((∀ p ∈ c1ws.effects, passiveP p = true) ∧
      (c1ws.subs.getD 0 []).Nodup ∧ 0 < c1ws.store.length) ∧
    ((writeSignal 1 0 (.valueArg (.num 5)) c1ws).1 = .ok (.num 5) ∧
    (writeSignal 1 0 (.valueArg (.num 5)) c1ws).2.store = c1ws.store.set 0 (.num 5) ∧
    (writeSignal 1 0 (.valueArg (.num 5)) c1ws).2.trace =
      c1ws.trace ++ c1ws.subs.getD 0 [] ∧
    (writeSignal 1 0 (.valueArg (.num 5)) c1ws).2.log = c1ws.log ++
      concatMap (subFanLog (c1ws.store.set 0 (.num 5)) c1ws.effects) (c1ws.subs.getD 0 []) ∧
    (c1ws.subs.getD 0 []).Nodup) :=
  ⟨⟨by decide, by decide, by decide⟩,
   write_fanout_exactly_once 0 c1ws 0 (.num 5) (by decide) (by decide) (by decide)⟩

/-- C3: if the argument of the write accessor is callable the stored value
becomes its application to the current value, otherwise the argument
itself; the write returns the new value and a subsequent read returns the
same new value (effects assumed passive). -/
theorem write_value_semantics (F : Nat) (s : St) (i : Nat)
    (hpass : ∀ p ∈ s.effects, passiveP p = true)
    (hi : i < s.store.length) :
    (∀ v : JVal,
      (writeSignal (F + 1) i (.valueArg v) s).1 = .ok v ∧
      (writeSignal (F + 1) i (.valueArg v) s).2.store = s.store.set i v ∧
      (readSignal i (writeSignal (F + 1) i (.valueArg v) s).2).1 = v) ∧
    (∀ (f : JVal → Except String JVal) (w : JVal),
      f (s.store.getD i .undef) = .ok w →
      (writeSignal (F + 1) i (.fnArg f) s).1 = .ok w ∧
      (writeSignal (F + 1) i (.fnArg f) s).2.store = s.store.set i w ∧
      (readSignal i (writeSignal (F + 1) i (.fnArg f) s).2).1 = w) := by
  constructor
  · intro v
    obtain ⟨h1, h2, _, _, _⟩ :=
      writeSignal_spec F i s v (.valueArg v) hpass hi rfl
    refine ⟨h1, h2, ?_⟩
    rw [readSignal_val, h2, getD_set_self s.store i v .undef hi]
  · intro f w hf
    obtain ⟨h1, h2, _, _, _⟩ :=
      writeSignal_spec F i s w (.fnArg f) hpass hi hf
    refine ⟨h1, h2, ?_⟩
    rw [readSignal_val, h2, getD_set_self s.store i w .undef hi]

/-- Witness state for C3: one signal holding 10, no subscribers. -/
def c3ws : St :=
  { store := [JVal.num 10], subs := [[]], effects := [], vars := [],
    currentEffect := none, log := [], trace := [] }

/-- C3 witness: the theorem applied at `c3ws`, plus instantiation of the
inner quantifiers at a literal write of 4 and an updater doubling the
current value. -/
theorem write_value_semantics_witness :
    ((∀ p ∈ c3ws.effects, passiveP p = true) ∧ 0 < c3ws.store.length) ∧
    ((writeSignal 1 0 (.valueArg (.num 4)) c3ws).1 = .ok (.num 4) ∧
     (readSignal 0 (writeSignal 1 0 (.valueArg (.num 4)) c3ws).2).1 = .num 4) ∧
    ((writeSignal 1 0 (.fnArg (fun v => .ok (jadd v v))) c3ws).1 = .ok (.num 20) ∧
     (readSignal 0 (writeSignal 1 0 (.fnArg (fun v => .ok (jadd v v))) c3ws).2).1 = .num 20) :=
  ⟨⟨by decide, by decide⟩,
   ⟨((write_value_semantics 0 c3ws 0 (by decide) (by decide)).1 (.num 4)).1,
    ((write_value_semantics 0 c3ws 0 (by decide) (by decide)).1 (.num 4)).2.2⟩,
   ⟨((write_value_semantics 0 c3ws 0 (by decide) (by decide)).2
      (fun v => .ok (jadd v v)) (.num 20) rfl).1,
    ((write_value_semantics 0 c3ws 0 (by decide) (by decide)).2
      (fun v => .ok (jadd v v)) (.num 20) rfl).2.2⟩⟩

/-- C10: if the updater function passed to the write accessor throws, the
write rethrows after reporting "Error in signal setter:", the stored
value is unchanged (a subsequent read returns the pre-write value), and
no subscriber is invoked (the invocation trace is unchanged). -/
theorem write_updater_throws (F i : Nat) (s : St)
    (f : JVal → Except String JVal) (m : String)
    (hf : f (s.store.getD i .undef) = .error m) :
    writeSignal F i (.fnArg f) s =
      (.error m, addLog ("Error in signal setter: " ++ m) s) ∧
    (writeSignal F i (.fnArg f) s).2.store = s.store ∧
    (writeSignal F i (.fnArg f) s).2.trace = s.trace ∧
    (readSignal i (writeSignal F i (.fnArg f) s).2).1 =
      s.store.getD i .undef := by
  have hunf : writeSignal F i (.fnArg f) s =
      (.error m, addLog ("Error in signal setter: " ++ m) s) := by
    unfold writeSignal writeSignalWith
    rw [show applyWArg (.fnArg f) (s.store.getD i .undef) = .error m from hf]
  refine ⟨hunf, ?_, ?_, ?_⟩
  · rw [hunf]; rfl
  · rw [hunf]; rfl
  · rw [hunf, readSignal_val]; rfl

/-- C10 witness: the theorem applied at a concrete signal holding 7 and a
throwing updater. -/
theorem write_updater_throws_witness :
    ((fun _ : JVal => (.error "boom" : Except String JVal)) (c3ws.store.getD 0 .undef) =
      .error "boom") ∧
    (writeSignal 1 0 (.fnArg (fun _ => .error "boom")) c3ws =
      (.error "boom", addLog ("Error in signal setter: boom") c3ws) ∧
    (writeSignal 1 0 (.fnArg (fun _ => .error "boom")) c3ws).2.store = c3ws.store ∧
    (writeSignal 1 0 (.fnArg (fun _ => .error "boom")) c3ws).2.trace = c3ws.trace ∧
    (readSignal 0 (writeSignal 1 0 (.fnArg (fun _ => .error "boom")) c3ws).2).1 =
      c3ws.store.getD 0 .undef) :=
  ⟨rfl, write_updater_throws 1 0 c3ws (fun _ => .error "boom") "boom" rfl⟩

/-- C4: `setEffect` invokes the freshly created run closure exactly once,
immediately (the ghost trace grows by exactly the new effect id); the
current-effect slot is `none` once `setEffect` returns, on success and on
failure alike; a failure of this first invocation is reported twice
("Error in effect:", then "Error initializing effect:") but `setEffect`
still returns normally; and while the body runs the current-effect slot
holds the new closure, observably because a body that reads signal `j`
leaves the new effect id registered in signal `j`'s subscriber set. -/
theorem setEffect_contract (F : Nat) (s : St) (body : Prog)
    (hp : passiveP body = true) :
    (setEffect (F + 1) body s).trace = s.trace ++ [s.effects.length] ∧
    (setEffect (F + 1) body s).currentEffect = none ∧
    (setEffect (F + 1) body s).log = s.log ++
      (match progOutcome s.store body with
       | .ok _ => []
       | .error m =>
         ["Error in effect: " ++ m, "Error initializing effect: " ++ m]) ∧
    (∀ j, j < s.subs.length →
      s.effects.length ∈ (setEffect (F + 1) (.expr (.readSig j)) s).subs.getD j []) := by
  have hb : ({ s with effects := s.effects ++ [body] } : St).effects.getD
      s.effects.length .skip = body := getD_append_len s.effects body .skip
  have hp' : passiveP (({ s with effects := s.effects ++ [body] } : St).effects.getD
      s.effects.length .skip) = true := by rw [hb]; exact hp
  obtain ⟨ho, hst, _heff, htr, hlg, hce, _hsl⟩ :=
    runEffectFuel_passive F s.effects.length { s with effects := s.effects ++ [body] } hp'
  rw [hb] at ho hlg
  dsimp only at ho hst htr hlg hce
  cases h : runEffectFuel (F + 1) s.effects.length
      { s with effects := s.effects ++ [body] } with
  | mk r t =>
    rw [h] at ho hst htr hlg hce
    dsimp only at ho hst htr hlg hce
    have hpart4 : ∀ j, j < s.subs.length →
        s.effects.length ∈ (setEffect (F + 1) (.expr (.readSig j)) s).subs.getD j [] := by
      intro j hj
      have hb2 : ({ s with effects := s.effects ++ [.expr (.readSig j)] } : St).effects.getD
          s.effects.length .skip = .expr (.readSig j) :=
        getD_append_len s.effects (.expr (.readSig j)) .skip
      have hrun : runProgWith (runEffectFuel F)
          (({ s with effects := s.effects ++ [.expr (.readSig j)] } : St).effects.getD
            s.effects.length .skip)
          { store := s.store, subs := s.subs, effects := s.effects ++ [.expr (.readSig j)],
            vars := s.vars, currentEffect := some s.effects.length, log := s.log,
            trace := s.trace ++ [s.effects.length] } =
          (.ok (s.store.getD j .undef),
           { store := s.store, subs := s.subs.set j (addSub s.effects.length (s.subs.getD j [])),
             effects := s.effects ++ [.expr (.readSig j)], vars := s.vars,
             currentEffect := some s.effects.length, log := s.log,
             trace := s.trace ++ [s.effects.length] }) := by
        rw [hb2]
        rfl
      have hunf2 : setEffect (F + 1) (.expr (.readSig j)) s =
          { store := s.store, subs := s.subs.set j (addSub s.effects.length (s.subs.getD j [])),
            effects := s.effects ++ [.expr (.readSig j)], vars := s.vars,
            currentEffect := none, log := s.log,
            trace := s.trace ++ [s.effects.length] } := by
        simp only [setEffect, runEffectFuel]
        rw [hrun]
      rw [hunf2]
      dsimp only
      rw [getD_set_self s.subs j _ [] hj]
      exact mem_addSub_self s.effects.length (s.subs.getD j [])
    cases r with
    | ok v =>
      have hunf : setEffect (F + 1) body s = t := by
        simp only [setEffect]
        rw [h]
      refine ⟨?_, ?_, ?_, hpart4⟩
      · rw [hunf]; exact htr
      · rw [hunf]; exact hce
      · rw [hunf, hlg, ← ho]
    | error m =>
      have hunf : setEffect (F + 1) body s =
          addLog ("Error initializing effect: " ++ m) t := by
        simp only [setEffect]
        rw [h]
      refine ⟨?_, ?_, ?_, hpart4⟩
      · rw [hunf]; exact htr
      · rw [hunf]; exact hce
      · rw [hunf]
        rw [show (addLog ("Error initializing effect: " ++ m) t).log =
            t.log ++ ["Error initializing effect: " ++ m] from rfl]
        rw [hlg, ← ho]
        simp

/-- C4 witness: the theorem applied at `c3ws` with a throwing body; the
subscription part is instantiated at signal 0. -/
theorem setEffect_contract_witness :
    (passiveP (.expr (.throwE "bad")) = true) ∧
    ((setEffect 1 (.expr (.throwE "bad")) c3ws).trace =
      c3ws.trace ++ [c3ws.effects.length] ∧
    (setEffect 1 (.expr (.throwE "bad")) c3ws).currentEffect = none ∧
    (setEffect 1 (.expr (.throwE "bad")) c3ws).log = c3ws.log ++
      (match progOutcome c3ws.store (.expr (.throwE "bad")) with
       | .ok _ => []
       | .error m =>
         ["Error in effect: " ++ m, "Error initializing effect: " ++ m]) ∧
    (∀ j, j < c3ws.subs.length →
      c3ws.effects.length ∈ (setEffect 1 (.expr (.readSig j)) c3ws).subs.getD j [])) :=
  ⟨by decide, setEffect_contract 0 c3ws (.expr (.throwE "bad")) (by decide)⟩

/-- State of the spec's round-trip test before any call: a plain counter
variable `n = 0` (vars slot 0) and nothing else. -/
def c6s0 : St :=
  { store := [], subs := [], effects := [], vars := [JVal.num 0],
    currentEffect := none, log := [], trace := [] }

/-- The round-trip test after `const [r, w] = setSignal(1)` and
`setEffect(() => { r(); n++ })`. -/
def c6setup : St :=
  setEffect 1 (.seq (.expr (.readSig 0)) (.incVar 0)) (setSignal (.num 1) c6s0).2

/-- The round-trip test after the subsequent `w(1)`. -/
def c6final : St := (writeSignal 1 0 (.valueArg (.num 1)) c6setup).2

/-- C6: the write accessor performs no equality short-circuit: writing the
signal's current value (1, unchanged) still re-invokes the subscribed
effect, so the counter `n` reaches 2 and the effect-run trace shows two
invocations of effect 0 (once at creation, once from the write). -/
theorem write_no_equality_shortcircuit :
    c6setup.vars = [JVal.num 1] ∧
    c6final.vars = [JVal.num 2] ∧
    c6final.trace = [0, 0] ∧
    (writeSignal 1 0 (.valueArg (.num 1)) c6setup).1 = .ok (.num 1) := by
  refine ⟨rfl, rfl, rfl, rfl⟩

theorem exprOutcome_set_notRead (e : Expr) (store : List JVal) (j : Nat)
    (v : JVal) (hj : j ∉ reads e) :
    exprOutcome (store.set j v) e = exprOutcome store e := by
  induction e with
  | lit w => rfl
  | readSig i =>
    have hne : j ≠ i := by simpa [reads] using hj
    show Except.ok ((store.set j v).getD i .undef) =
      Except.ok (store.getD i .undef)
    rw [getD_set_ne store j i v .undef hne]
  | appE f a ih =>
    have hj' : j ∉ reads a := by simpa [reads] using hj
    simp [exprOutcome, ih hj']
  | appE2 f a b iha ihb =>
    have hj' : j ∉ reads a ∧ j ∉ reads b := by
      constructor <;> intro hmem <;> exact hj (by simp [reads, hmem])
    simp [exprOutcome, iha hj'.1, ihb hj'.2]
  | throwE m => rfl

/-- Which subscriber-set entries a successful expression evaluation under
current effect `ce` touches: every signal the expression reads gains `ce`
(via `addSub`), every other signal's subscriber set is unchanged. -/
theorem evalExpr_subs (e : Expr) : ∀ (s : St) (ce : Nat),
    s.currentEffect = some ce →
    (∃ w, exprOutcome s.store e = .ok w) →
    ∀ j : Nat,
    (j ∈ reads e → j < s.subs.length →
      (evalExpr e s).2.subs.getD j [] = addSub ce (s.subs.getD j [])) ∧
    (j ∉ reads e → (evalExpr e s).2.subs.getD j [] = s.subs.getD j []) := by
  induction e with
  | lit v =>
    intro s ce hce _ j
    exact ⟨fun h => by simp [reads] at h, fun _ => rfl⟩
  | readSig i =>
    intro s ce hce _ j
    constructor
    · intro hmem hlt
      have hji : j = i := by simpa [reads] using hmem
      subst hji
      simp only [evalExpr, readSignal, hce]
      exact getD_set_self s.subs j _ [] hlt
    · intro hnm
      have hji : j ≠ i := by simpa [reads] using hnm
      simp only [evalExpr, readSignal, hce]
      exact getD_set_ne s.subs i j _ [] (Ne.symm hji)
  | appE f a ih =>
    intro s ce hce hok j
    obtain ⟨w, hw⟩ := hok
    have haok : ∃ va, exprOutcome s.store a = .ok va := by
      cases hcase : exprOutcome s.store a with
      | ok va => exact ⟨va, rfl⟩
      | error m =>
        rw [show exprOutcome s.store (.appE f a) =
          (match exprOutcome s.store a with
           | .ok v => f v
           | .error m => .error m) from rfl, hcase] at hw
        exact absurd hw (by simp)
    have key := ih s ce hce haok j
    obtain ⟨va, hva⟩ := haok
    cases ha : evalExpr a s with
    | mk r s1 =>
      rw [ha] at key
      have hr : r = .ok va := by
        have hoc := evalExpr_outcome a s
        rw [ha] at hoc
        dsimp only at hoc
        rw [hoc, hva]
      subst hr
      constructor
      · intro hmem hlt
        have h1 := key.1 (by simpa [reads] using hmem) hlt
        rw [show evalExpr (.appE f a) s =
          (match evalExpr a s with
           | (.ok v, s') => (f v, s')
           | (.error m, s') => (.error m, s')) from rfl, ha]
        exact h1
      · intro hnm
        have h2 := key.2 (by simpa [reads] using hnm)
        rw [show evalExpr (.appE f a) s =
          (match evalExpr a s with
           | (.ok v, s') => (f v, s')
           | (.error m, s') => (.error m, s')) from rfl, ha]
        exact h2
  | appE2 f a b iha ihb =>
    intro s ce hce hok j
    obtain ⟨w, hw⟩ := hok
    have haok : ∃ va, exprOutcome s.store a = .ok va := by
      cases hcase : exprOutcome s.store a with
      | ok va => exact ⟨va, rfl⟩
      | error m =>
        rw [show exprOutcome s.store (.appE2 f a b) =
          (match exprOutcome s.store a with
           | .ok va =>
             (match exprOutcome s.store b with
              | .ok vb => f va vb
              | .error m => .error m)
           | .error m => .error m) from rfl, hcase] at hw
        exact absurd hw (by simp)
    obtain ⟨va, hva⟩ := haok
    have hbok : ∃ vb, exprOutcome s.store b = .ok vb := by
      cases hcase : exprOutcome s.store b with
      | ok vb => exact ⟨vb, rfl⟩
      | error m =>
        rw [show exprOutcome s.store (.appE2 f a b) =
          (match exprOutcome s.store a with
           | .ok va =>
             (match exprOutcome s.store b with
              | .ok vb => f va vb
              | .error m => .error m)
           | .error m => .error m) from rfl, hva, hcase] at hw
        exact absurd hw (by simp)
    have keyA := iha s ce hce ⟨va, hva⟩ j
    cases ha : evalExpr a s with
    | mk r s1 =>
      rw [ha] at keyA
      have hr : r = .ok va := by
        have hoc := evalExpr_outcome a s
        rw [ha] at hoc
        dsimp only at hoc
        rw [hoc, hva]
      subst hr
      have hfr := evalExpr_frame a s
      rw [ha] at hfr
      unfold frameEq at hfr
      obtain ⟨f1, _f2, _f3, _f4, f5, f6⟩ := hfr
      dsimp only at f1 f5 f6
      have keyB := ihb s1 ce (by rw [f5]; exact hce)
        (by rw [f1]; exact hbok) j
      cases hb : evalExpr b s1 with
      | mk r2 s2 =>
        rw [hb] at keyB
        obtain ⟨vb, hvb⟩ := hbok
        have hr2 : r2 = .ok vb := by
          have hoc := evalExpr_outcome b s1
          rw [hb] at hoc
          dsimp only at hoc
          rw [hoc, f1, hvb]
        subst hr2
        have hgoal : (evalExpr (.appE2 f a b) s).2 = s2 := by
          rw [show evalExpr (.appE2 f a b) s =
            (match evalExpr a s with
             | (.ok va, s1) =>
               (match evalExpr b s1 with
                | (.ok vb, s2) => (f va vb, s2)
                | (.error m, s2) => (.error m, s2))
             | (.error m, s1) => (.error m, s1)) from rfl]
          rw [ha]
          dsimp only
          rw [hb]
        rw [hgoal]
        constructor
        · intro hmem hlt
          by_cases hina : j ∈ reads a
          · have h1 := keyA.1 hina hlt
            by_cases hinb : j ∈ reads b
            · have h2 := keyB.1 hinb (by rw [f6]; exact hlt)
              rw [h2, h1, addSub_idem]
            · have h2 := keyB.2 hinb
              rw [h2, h1]
          · have hinb : j ∈ reads b := by
              have : j ∈ reads a ++ reads b := by simpa [reads] using hmem
              rcases List.mem_append.mp this with h | h
              · exact absurd h hina
              · exact h
            have h1 := keyA.2 hina
            have h2 := keyB.1 hinb (by rw [f6]; exact hlt)
            rw [h2, h1]
        · intro hnm
          have hna : j ∉ reads a := by
            intro hmem
            exact hnm (by simp [reads, hmem])
          have hnb : j ∉ reads b := by
            intro hmem
            exact hnm (by simp [reads, hmem])
          rw [keyB.2 hnb, keyA.2 hna]
  | throwE m =>
    intro s ce hce hok j
    obtain ⟨w, hw⟩ := hok
    exact absurd hw (by simp [exprOutcome])

/-- One run of a memo's owning effect (registered as effect 0 with body
`catchLog "Error in memo function: " (writeVal n e)`) in a state where
the memo's own signal `n` has no subscribers and the compute expression
succeeds: it recomputes `e`, stores the result into signal `n`,
re-registers itself with every signal `e` reads, and clears the
current-effect slot. -/
theorem memoEffect_run (G n : Nat) (e : Expr) (st : St) (v : JVal)
    (heff : st.effects = [.catchLog "Error in memo function: " (.writeVal n e)])
    (hlen : st.store.length = n + 1)
    (hslen : st.subs.length = n + 1)
    (hreads : ∀ j ∈ reads e, j < n)
    (hsubn : st.subs.getD n [] = [])
    (hv : exprOutcome st.store e = .ok v) :
    (runEffectFuel (G + 1) 0 st).1 = .ok v ∧
    (runEffectFuel (G + 1) 0 st).2.store = st.store.set n v ∧
    (runEffectFuel (G + 1) 0 st).2.effects = st.effects ∧
    (runEffectFuel (G + 1) 0 st).2.currentEffect = none ∧
    (runEffectFuel (G + 1) 0 st).2.subs.length = st.subs.length ∧
    (∀ j, j ∈ reads e → (runEffectFuel (G + 1) 0 st).2.subs.getD j [] =
      addSub 0 (st.subs.getD j [])) ∧
    (∀ j, j ∉ reads e → (runEffectFuel (G + 1) 0 st).2.subs.getD j [] =
      st.subs.getD j []) := by
  have hbody : ({ st with currentEffect := some 0, trace := st.trace ++ [0] } : St).effects.getD
      0 .skip = .catchLog "Error in memo function: " (.writeVal n e) := by
    show st.effects.getD 0 .skip = _
    rw [heff]
    rfl
  have hok0 : ∃ w, exprOutcome
      ({ st with currentEffect := some 0, trace := st.trace ++ [0] } : St).store e = .ok w :=
    ⟨v, hv⟩
  have hSubs := evalExpr_subs e
    { st with currentEffect := some 0, trace := st.trace ++ [0] } 0 rfl hok0
  cases hEv : evalExpr e { st with currentEffect := some 0, trace := st.trace ++ [0] } with
  | mk rv s1 =>
    simp only [hEv] at hSubs
    have hr : rv = .ok v := by
      have hoc := evalExpr_outcome e { st with currentEffect := some 0, trace := st.trace ++ [0] }
      rw [hEv] at hoc
      dsimp only at hoc
      rw [hoc]
      exact hv
    subst hr
    have hfr := evalExpr_frame e { st with currentEffect := some 0, trace := st.trace ++ [0] }
    rw [hEv] at hfr
    unfold frameEq at hfr
    obtain ⟨f1, f2, _f3, _f4, f5, f6⟩ := hfr
    dsimp only at f1 f2 f5 f6
    have hn1 : n < s1.store.length := by
      rw [f1, hlen]
      omega
    have hsnap : s1.subs.getD n [] = [] := by
      have hnr : n ∉ reads e := fun hmem => absurd (hreads n hmem) (by omega)
      rw [(hSubs n).2 hnr]
      exact hsubn
    have hW : writeSignalWith (runEffectFuel G) n (.valueArg v) s1 =
        (.ok v, { s1 with store := s1.store.set n v }) := by
      unfold writeSignalWith
      dsimp only [applyWArg]
      rw [hsnap]
      show (Except.ok ((s1.store.set n v).getD n .undef),
        ({ s1 with store := s1.store.set n v } : St)) = _
      rw [getD_set_self s1.store n v .undef hn1]
    have hProg : runProgWith (runEffectFuel G)
        (.catchLog "Error in memo function: " (.writeVal n e))
        { st with currentEffect := some 0, trace := st.trace ++ [0] } =
        (.ok v, { s1 with store := s1.store.set n v }) := by
      show (match runProgWith (runEffectFuel G) (.writeVal n e)
          { st with currentEffect := some 0, trace := st.trace ++ [0] } with
        | (.ok v, s') => ((.ok v : Except String JVal), s')
        | (.error m, s') =>
          (.error m, addLog ("Error in memo function: " ++ m) s')) = _
      rw [show runProgWith (runEffectFuel G) (.writeVal n e)
          { st with currentEffect := some 0, trace := st.trace ++ [0] } =
        (match evalExpr e { st with currentEffect := some 0, trace := st.trace ++ [0] } with
         | (.ok w, s') => writeSignalWith (runEffectFuel G) n (.valueArg w) s'
         | (.error m, s') => (.error m, s')) from rfl]
      rw [hEv]
      dsimp only
      rw [hW]
    have hRun : runEffectFuel (G + 1) 0 st =
        (.ok v, { s1 with store := s1.store.set n v, currentEffect := none }) := by
      simp only [runEffectFuel]
      rw [hbody]
      rw [hProg]
    refine ⟨?_, ?_, ?_, ?_, ?_, ?_, ?_⟩
    · rw [hRun]
    · rw [hRun]
      show (s1.store.set n v) = st.store.set n v
      rw [f1]
    · rw [hRun]
      show s1.effects = st.effects
      rw [f2]
    · rw [hRun]
    · rw [hRun]
      show s1.subs.length = st.subs.length
      rw [f6]
    · intro j hj
      rw [hRun]
      show s1.subs.getD j [] = addSub 0 (st.subs.getD j [])
      have hlt : j < st.subs.length := by
        rw [hslen]
        exact Nat.lt_succ_of_lt (hreads j hj)
      rw [(hSubs j).1 hj hlt]
    · intro j hj
      rw [hRun]
      show s1.subs.getD j [] = st.subs.getD j []
      rw [(hSubs j).2 hj]

/-- Invariant of a mounted memo over expression `e` on `n` prior signals:
its owning effect (id 0) is the only effect, the current-effect slot is
clear, the memo's signal is cell `n`, the memo effect is subscribed to
exactly the signals `e` reads, nobody subscribes to the memo's own
signal, and the stored memo value equals the compute expression applied
to the current store. -/
def memoInv (n : Nat) (e : Expr) (st : St) : Prop :=
  st.effects = [.catchLog "Error in memo function: " (.writeVal n e)] ∧
  st.currentEffect = none ∧
  st.store.length = n + 1 ∧
  st.subs.length = n + 1 ∧
  (∀ j, j ∈ reads e → st.subs.getD j [] = [0]) ∧
  (∀ j, j ∉ reads e → st.subs.getD j [] = []) ∧
  exprOutcome st.store e = .ok (st.store.getD n .undef)

theorem addSub_zero_nil : addSub 0 [] = [0] := by decide

theorem addSub_zero_zero : addSub 0 [0] = [0] := by decide

theorem memo_setup (F : Nat) (e : Expr) (vals vs : List JVal)
    (hreads : ∀ j ∈ reads e, j < vals.length)
    (hok : ∀ store : List JVal, ∃ w, exprOutcome store e = .ok w) :
    (setMemo (F + 1) e
      { store := vals, subs := List.replicate vals.length [],
        effects := [], vars := vs, currentEffect := none, log := [],
        trace := [] }).1 = vals.length ∧
    memoInv vals.length e (setMemo (F + 1) e
      { store := vals, subs := List.replicate vals.length [],
        effects := [], vars := vs, currentEffect := none, log := [],
        trace := [] }).2 := by
  obtain ⟨w, hw⟩ := hok (vals ++ [.undef])
  have hallnil : ∀ j', (List.replicate vals.length ([] : List Nat) ++
      [([] : List Nat)]).getD j' [] = [] := by
    intro j'
    refine getD_all_eq _ _ j' ?_
    intro x hx
    rcases List.mem_append.mp hx with h | h
    · exact List.eq_of_mem_replicate h
    · simpa using h
  have hrun := memoEffect_run F vals.length e
    { store := vals ++ [.undef],
      subs := List.replicate vals.length [] ++ [[]],
      effects := [.catchLog "Error in memo function: " (.writeVal vals.length e)],
      vars := vs, currentEffect := none, log := [], trace := [] } w
    rfl (by simp) (by simp) hreads (hallnil vals.length) hw
  obtain ⟨r1, r2, r3, r4, r5, r6, r7⟩ := hrun
  cases h : runEffectFuel (F + 1) 0
      { store := vals ++ [.undef],
        subs := List.replicate vals.length [] ++ [[]],
        effects := [.catchLog "Error in memo function: " (.writeVal vals.length e)],
        vars := vs, currentEffect := none, log := [], trace := [] } with
  | mk r t =>
    rw [h] at r1 r2 r3 r4 r5 r6 r7
    dsimp only at r1 r2 r3 r4 r5 r6 r7
    have hms : setMemo (F + 1) e
        { store := vals, subs := List.replicate vals.length [],
          effects := [], vars := vs, currentEffect := none, log := [],
          trace := [] } = (vals.length, t) := by
      have hdef : setMemo (F + 1) e
          { store := vals, subs := List.replicate vals.length [],
            effects := [], vars := vs, currentEffect := none, log := [],
            trace := [] } = (vals.length,
        match runEffectFuel (F + 1) 0
          { store := vals ++ [.undef],
            subs := List.replicate vals.length [] ++ [[]],
            effects := [.catchLog "Error in memo function: " (.writeVal vals.length e)],
            vars := vs, currentEffect := none, log := [], trace := [] } with
        | (.ok _, t') => t'
        | (.error m, t') => addLog ("Error initializing effect: " ++ m) t') := rfl
      rw [hdef, h]
      cases r with
      | ok v => rfl
      | error m => exact absurd r1 (by simp)
    refine ⟨by rw [hms], ?_⟩
    rw [hms]
    refine ⟨?_, r4, ?_, ?_, ?_, ?_, ?_⟩
    · rw [r3]
    · rw [r2]; simp
    · rw [r5]; simp
    · intro j hj
      rw [r6 j hj, hallnil j, addSub_zero_nil]
    · intro j hj
      rw [r7 j hj, hallnil j]
    · rw [r2]
      have hn : vals.length < (vals ++ [JVal.undef]).length := by simp
      rw [getD_set_self _ _ _ _ hn]
      rw [exprOutcome_set_notRead e _ vals.length w
        (fun hmem => absurd (hreads _ hmem) (by omega))]
      exact hw

theorem memo_write_step (G n : Nat) (e : Expr) (st : St) (j : Nat) (v : JVal)
    (hreads : ∀ k ∈ reads e, k < n)
    (hok : ∀ store : List JVal, ∃ w, exprOutcome store e = .ok w)
    (hinv : memoInv n e st) (hj : j < n) :
    memoInv n e (writeSignal (G + 1) j (.valueArg v) st).2 := by
  obtain ⟨ie, ic, il, isl, ir, inr, iv⟩ := hinv
  have hnr : n ∉ reads e := fun hmem => absurd (hreads n hmem) (by omega)
  have hunf : (writeSignal (G + 1) j (.valueArg v) st).2 =
      runSubscribersWith (runEffectFuel (G + 1)) (st.subs.getD j [])
        { st with store := st.store.set j v } := rfl
  rw [hunf]
  by_cases hmem : j ∈ reads e
  · rw [ir j hmem]
    obtain ⟨w, hw⟩ := hok (st.store.set j v)
    have hrun := memoEffect_run G n e { st with store := st.store.set j v } w
      (by show st.effects = _; exact ie)
      (by show (st.store.set j v).length = n + 1; simp [il])
      isl hreads
      (by show st.subs.getD n [] = []; exact inr n hnr)
      hw
    obtain ⟨r1, r2, r3, r4, r5, r6, r7⟩ := hrun
    cases h : runEffectFuel (G + 1) 0 { st with store := st.store.set j v } with
    | mk r t =>
      rw [h] at r1 r2 r3 r4 r5 r6 r7
      dsimp only at r1 r2 r3 r4 r5 r6 r7
      have hX : runSubscribersWith (runEffectFuel (G + 1)) [0]
          { st with store := st.store.set j v } = t := by
        have hdef : runSubscribersWith (runEffectFuel (G + 1)) [0]
            { st with store := st.store.set j v } =
          (match runEffectFuel (G + 1) 0 { st with store := st.store.set j v } with
           | (.ok _, t') => runSubscribersWith (runEffectFuel (G + 1)) [] t'
           | (.error m, t') => runSubscribersWith (runEffectFuel (G + 1)) []
               (addLog ("Error in signal subscriber: " ++ m) t')) := rfl
        rw [hdef, h]
        cases r with
        | ok u => rfl
        | error m => exact absurd r1 (by simp)
      rw [hX]
      refine ⟨?_, r4, ?_, ?_, ?_, ?_, ?_⟩
      · rw [r3]; exact ie
      · rw [r2]; simp [il]
      · rw [r5]; exact isl
      · intro k hk
        rw [r6 k hk]
        show addSub 0 (st.subs.getD k []) = [0]
        rw [ir k hk, addSub_zero_zero]
      · intro k hk
        rw [r7 k hk]
        exact inr k hk
      · rw [r2]
        have hn : n < (st.store.set j v).length := by simp [il]
        rw [getD_set_self _ _ _ _ hn]
        rw [exprOutcome_set_notRead e _ n w hnr]
        exact hw
  · rw [inr j hmem]
    show memoInv n e { st with store := st.store.set j v }
    refine ⟨ie, ic, ?_, isl, ?_, ?_, ?_⟩
    · show (st.store.set j v).length = n + 1; simp [il]
    · intro k hk
      exact ir k hk
    · intro k hk
      exact inr k hk
    · show exprOutcome (st.store.set j v) e =
        .ok ((st.store.set j v).getD n .undef)
      rw [exprOutcome_set_notRead e _ j v hmem]
      rw [getD_set_ne st.store j n v .undef (by omega)]
      exact iv

theorem memo_writes_fold (G n : Nat) (e : Expr)
    (hreads : ∀ k ∈ reads e, k < n)
    (hok : ∀ store : List JVal, ∃ w, exprOutcome store e = .ok w) :
    ∀ (ws : List (Nat × JVal)) (st : St), memoInv n e st →
    (∀ x ∈ ws, x.1 < n) →
    memoInv n e (ws.foldl
      (fun t x => (writeSignal (G + 1) x.1 (.valueArg x.2) t).2) st) := by
  intro ws
  induction ws with
  | nil => intro st h _; exact h
  | cons x rest ih =>
    intro st h hx
    simp only [List.foldl_cons]
    exact ih _ (memo_write_step G n e st x.1 x.2 hreads hok h
      (hx x (by simp))) (fun y hy => hx y (by simp [hy]))

/-- The state reached by creating `vals.length` signals, mounting a memo
over `e`, and then performing the writes `ws` (each a signal index and a
plain value) in order. -/
def memoScenario (F G : Nat) (e : Expr) (vals vs : List JVal)
    (ws : List (Nat × JVal)) : St :=
  ws.foldl (fun t x => (writeSignal (G + 1) x.1 (.valueArg x.2) t).2)
    (setMemo (F + 1) e
      { store := vals, subs := List.replicate vals.length [],
        effects := [], vars := vs, currentEffect := none, log := [],
        trace := [] }).2

/-- C5: the accessor returned by `setMemo` designates the memo's own
signal (`vals.length`), and after any synchronous sequence of writes to
the prior signals has settled, reading the memo returns exactly the
compute expression's value on the latest store. -/
theorem memo_reads_latest (F G : Nat) (e : Expr) (vals vs : List JVal)
    (ws : List (Nat × JVal))
    (hreads : ∀ j ∈ reads e, j < vals.length)
    (hok : ∀ store : List JVal, ∃ w, exprOutcome store e = .ok w)
    (hws : ∀ x ∈ ws, x.1 < vals.length) :
    (setMemo (F + 1) e
      { store := vals, subs := List.replicate vals.length [],
        effects := [], vars := vs, currentEffect := none, log := [],
        trace := [] }).1 = vals.length ∧
    ∃ v, exprOutcome (memoScenario F G e vals vs ws).store e = .ok v ∧
      (readSignal vals.length (memoScenario F G e vals vs ws)).1 = v := by
  obtain ⟨h1, h2⟩ := memo_setup F e vals vs hreads hok
  have hfin := memo_writes_fold G vals.length e hreads hok ws _ h2 hws
  obtain ⟨_, _, _, _, _, _, hval⟩ := hfin
  refine ⟨h1, (memoScenario F G e vals vs ws).store.getD vals.length .undef,
    hval, ?_⟩
  rw [readSignal_val]

/-- C5 witness: a memo summing two signals (initially 1 and 2), written
twice; the theorem is applied at this concrete scenario. -/
theorem memo_reads_latest_witness :
    ((∀ j ∈ reads (.appE2 (fun a b => .ok (jadd a b)) (.readSig 0) (.readSig 1)),
        j < [JVal.num 1, JVal.num 2].length) ∧
     (∀ x ∈ [((0 : Nat), JVal.num 10), ((1 : Nat), JVal.num 20)],
        x.1 < [JVal.num 1, JVal.num 2].length)) ∧
    ((setMemo 1 (.appE2 (fun a b => .ok (jadd a b)) (.readSig 0) (.readSig 1))
        { store := [JVal.num 1, JVal.num 2],
          subs := List.replicate [JVal.num 1, JVal.num 2].length [],
          effects := [], vars := [], currentEffect := none, log := [],
          trace := [] }).1 = [JVal.num 1, JVal.num 2].length ∧
    ∃ v, exprOutcome (memoScenario 0 0
        (.appE2 (fun a b => .ok (jadd a b)) (.readSig 0) (.readSig 1))
        [JVal.num 1, JVal.num 2] []
        [((0 : Nat), JVal.num 10), ((1 : Nat), JVal.num 20)]).store
        (.appE2 (fun a b => .ok (jadd a b)) (.readSig 0) (.readSig 1)) = .ok v ∧
      (readSignal [JVal.num 1, JVal.num 2].length (memoScenario 0 0
        (.appE2 (fun a b => .ok (jadd a b)) (.readSig 0) (.readSig 1))
        [JVal.num 1, JVal.num 2] []
        [((0 : Nat), JVal.num 10), ((1 : Nat), JVal.num 20)])).1 = v) :=
  ⟨⟨by decide, by decide⟩,
   memo_reads_latest 0 0
     (.appE2 (fun a b => .ok (jadd a b)) (.readSig 0) (.readSig 1))
     [JVal.num 1, JVal.num 2] []
     [((0 : Nat), JVal.num 10), ((1 : Nat), JVal.num 20)]
     (by decide)
     (fun store => ⟨jadd (store.getD 0 .undef) (store.getD 1 .undef), rfl⟩)
     (by decide)⟩

/-
Model of the dynamic child binder (core.js lines 201-248).  DOM node
identity is modelled by a numeric id; a parent's children are a list of
nodes.  The placeholder of a reactive child is the empty text node the
binder inserts; on every rerun the effect evaluates the callable and
patches the parent as the code does: primitives mutate the placeholder's
text, nodes and arrays remove every sibling after the placeholder and
insert the new rendering there.
-/

/-- A DOM node in a parent's child list: a text node with mutable content,
or any other node (element, comment, ...) identified only by its id. -/
inductive DNode where
  | dtext (id : Nat) (content : String)
  | delem (id : Nat)
deriving DecidableEq

def dnodeId : DNode → Nat
  | .dtext i _ => i
  | .delem i => i

/-- One entry of an array returned by a reactive child's callable
(already flattened, mirroring `flat(Infinity)`). -/
inductive DItem where
  | dinode (n : DNode)
  | diprim (v : JVal)
  | dinull
deriving DecidableEq

/-- The value produced by one run of a reactive child's callable. -/
inductive DFnRes where
  | dnull
  | darr (items : List DItem)
  | dnode (n : DNode)
  | dprim (v : JVal)
deriving DecidableEq

/-- The parent element as the binder sees it: its ordered children, a
fresh-id counter for text nodes the binder creates, and the report log. -/
structure PState where
  children : List DNode
  nextId : Nat
  log : List String
deriving DecidableEq

/-- Test of `node === placeholder` (identity via id). -/
def hasId (ph : Nat) (n : DNode) : Bool := dnodeId n == ph

/-- Model of `placeholder.textContent = c` on the placeholder node. -/
def setTextAt (ph : Nat) (c : String) : List DNode → List DNode
  | [] => []
  | .dtext i t :: rest =>
    if i == ph then .dtext i c :: setTextAt ph c rest
    else .dtext i t :: setTextAt ph c rest
  | .delem i :: rest => .delem i :: setTextAt ph c rest

/-- Model of `while (placeholder.nextSibling) parent.removeChild(placeholder.nextSibling)`:
keep children up to and including the placeholder; if the placeholder is
not present, nothing follows it and nothing is removed. -/
def removeAfter (ph : Nat) : List DNode → List DNode
  | [] => []
  | n :: rest => if hasId ph n then [n] else n :: removeAfter ph rest

/-- Model of `parent.insertBefore(new, placeholder.nextSibling)`: splice the new
nodes in right after the placeholder (or append at the end if the
placeholder is absent, as `insertBefore(_, null)` appends). -/
def insertAfter (ph : Nat) (new : List DNode) : List DNode → List DNode
  | [] => new
  | n :: rest =>
    if hasId ph n then n :: (new ++ rest) else n :: insertAfter ph new rest

/-- Building `resultFragment` from an array result: nulls are skipped,
nodes pass through, primitives become fresh text nodes via
`document.createTextNode(String(item))` (fresh ids from the counter). -/
def buildFragment : List DItem → Nat → List DNode × Nat
  | [], k => ([], k)
  | .dinull :: rest, k => buildFragment rest k
  | .dinode n :: rest, k =>
    (n :: (buildFragment rest k).1, (buildFragment rest k).2)
  | .diprim v :: rest, k =>
    (.dtext k (jstr v) :: (buildFragment rest (k + 1)).1,
     (buildFragment rest (k + 1)).2)

/-- One run of the reactive-child effect body (core.js lines 206-247),
applied to the callable's outcome: null/undefined blanks the placeholder;
an array builds a fragment, removes everything after the placeholder and
inserts the fragment there; a node likewise; any other value is
stringified into the placeholder's own text; a thrown error is reported
and rendered into the placeholder's text. -/
def reactiveRun (ph : Nat) (res : Except String DFnRes) (st : PState) : PState :=
  match res with
  | .error m =>
    { st with children := setTextAt ph ("Error: " ++ m) st.children,
              log := st.log ++ ["Error in reactive child function: " ++ m] }
  | .ok .dnull => { st with children := setTextAt ph "" st.children }
  | .ok (.darr items) =>
    { children := insertAfter ph (buildFragment items st.nextId).1
        (removeAfter ph st.children),
      nextId := (buildFragment items st.nextId).2,
      log := st.log }
  | .ok (.dnode n) =>
    { st with children := insertAfter ph [n] (removeAfter ph st.children) }
  | .ok (.dprim v) => { st with children := setTextAt ph (jstr v) st.children }

/-- N successive reruns of the effect, oldest first. -/
def reactiveRuns (ph : Nat) : List (Except String DFnRes) → PState → PState
  | [], st => st
  | r :: rest, st => reactiveRuns ph rest (reactiveRun ph r st)

/-- Results that take the remove-and-reinsert path (a node or an array). -/
def nodeLike : DFnRes → Bool
  | .dnode _ => true
  | .darr _ => true
  | _ => false

def itemNoPh (ph : Nat) : DItem → Bool
  | .dinode n => dnodeId n != ph
  | _ => true

/-- The result embeds no node whose identity is the placeholder's. -/
def resNoPh (ph : Nat) : DFnRes → Bool
  | .dnode n => dnodeId n != ph
  | .darr items => items.all (itemNoPh ph)
  | _ => true

/-- The rendering a node/array result leaves after the placeholder, and
the fresh-id counter afterwards. -/
def regionOf : DFnRes → Nat → List DNode × Nat
  | .darr items, k => buildFragment items k
  | .dnode n, k => ([n], k)
  | _, k => ([], k)

/-- Fresh-id counter after a sequence of node/array reruns. -/
def regionNextId : List DFnRes → Nat → Nat
  | [], k => k
  | r :: rest, k => regionNextId rest (regionOf r k).2

theorem removeAfter_keep (ph : Nat) (c : String) (tail : List DNode) :
    ∀ pre : List DNode, (∀ x ∈ pre, dnodeId x ≠ ph) →
    removeAfter ph (pre ++ [.dtext ph c] ++ tail) = pre ++ [.dtext ph c] := by
  intro pre
  induction pre with
  | nil =>
    intro _
    simp [removeAfter, hasId, dnodeId]
  | cons x xs ih =>
    intro hpre
    have hx : hasId ph x = false := by
      simp only [hasId, beq_eq_false_iff_ne, ne_eq]
      exact hpre x (by simp)
    rw [List.cons_append, List.cons_append]
    show (if hasId ph x = true then [x]
      else x :: removeAfter ph (xs ++ [DNode.dtext ph c] ++ tail)) =
      x :: (xs ++ [DNode.dtext ph c])
    rw [hx, if_neg (by simp), ih (fun y hy => hpre y (by simp [hy]))]

theorem insertAfter_at (ph : Nat) (ns : List DNode) (c : String) :
    ∀ pre : List DNode, (∀ x ∈ pre, dnodeId x ≠ ph) →
    insertAfter ph ns (pre ++ [.dtext ph c]) = pre ++ [.dtext ph c] ++ ns := by
  intro pre
  induction pre with
  | nil =>
    intro _
    simp [insertAfter, hasId, dnodeId]
  | cons x xs ih =>
    intro hpre
    have hx : hasId ph x = false := by
      simp only [hasId, beq_eq_false_iff_ne, ne_eq]
      exact hpre x (by simp)
    rw [List.cons_append]
    show (if hasId ph x = true then x :: (ns ++ (xs ++ [DNode.dtext ph c]))
      else x :: insertAfter ph ns (xs ++ [DNode.dtext ph c])) =
      x :: xs ++ [DNode.dtext ph c] ++ ns
    rw [hx, if_neg (by simp), ih (fun y hy => hpre y (by simp [hy]))]
    simp

theorem buildFragment_fresh (ph : Nat) (items : List DItem) :
    ∀ k, ph < k → (∀ it ∈ items, itemNoPh ph it = true) →
    (∀ x ∈ (buildFragment items k).1, dnodeId x ≠ ph) ∧
    ph < (buildFragment items k).2 := by
  induction items with
  | nil =>
    intro k hk _
    exact ⟨by simp [buildFragment], hk⟩
  | cons it rest ih =>
    intro k hk hall
    cases it with
    | dinull =>
      simp only [buildFragment]
      exact ih k hk (fun y hy => hall y (by simp [hy]))
    | dinode n =>
      obtain ⟨h1, h2⟩ := ih k hk (fun y hy => hall y (by simp [hy]))
      have hn : dnodeId n ≠ ph := by
        have := hall (.dinode n) (by simp)
        simpa [itemNoPh] using this
      refine ⟨?_, by simpa [buildFragment] using h2⟩
      intro x hx
      simp only [buildFragment] at hx
      rcases List.mem_cons.mp hx with h | h
      · rw [h]; exact hn
      · exact h1 x h
    | diprim v =>
      obtain ⟨h1, h2⟩ := ih (k + 1) (Nat.lt_succ_of_lt hk)
        (fun y hy => hall y (by simp [hy]))
      refine ⟨?_, by simpa [buildFragment] using h2⟩
      intro x hx
      simp only [buildFragment] at hx
      rcases List.mem_cons.mp hx with h | h
      · rw [h]
        show k ≠ ph
        omega
      · exact h1 x h

theorem regionOf_fresh (ph : Nat) (r : DFnRes) (k : Nat)
    (hk : ph < k) (hshape : nodeLike r = true) (hnp : resNoPh ph r = true) :
    (∀ x ∈ (regionOf r k).1, dnodeId x ≠ ph) ∧ ph < (regionOf r k).2 := by
  cases r with
  | dnull => simp [nodeLike] at hshape
  | dprim v => simp [nodeLike] at hshape
  | dnode n =>
    refine ⟨?_, hk⟩
    intro x hx
    have hn : dnodeId n ≠ ph := by simpa [resNoPh] using hnp
    simp only [regionOf] at hx
    rcases List.mem_cons.mp hx with h | h
    · rw [h]; exact hn
    · simp at h
  | darr items =>
    have hall : ∀ it ∈ items, itemNoPh ph it = true := by
      intro it hit
      have := hnp
      simp only [resNoPh] at this
      exact List.all_eq_true.mp this it hit
    exact buildFragment_fresh ph items k hk hall

/-- One node/array rerun replaces everything after the placeholder with
the new rendering; siblings before the placeholder (and the placeholder
itself, text content included) are untouched. -/
theorem reactiveRun_replace (ph : Nat) (c : String) (pre tail : List DNode)
    (k : Nat) (lg : List String) (r : DFnRes)
    (hpre : ∀ x ∈ pre, dnodeId x ≠ ph)
    (hshape : nodeLike r = true) :
    reactiveRun ph (.ok r)
      { children := pre ++ [.dtext ph c] ++ tail, nextId := k, log := lg } =
    { children := pre ++ [.dtext ph c] ++ (regionOf r k).1,
      nextId := (regionOf r k).2, log := lg } := by
  cases r with
  | dnull => simp [nodeLike] at hshape
  | dprim v => simp [nodeLike] at hshape
  | dnode n =>
    have hstep : reactiveRun ph (.ok (.dnode n))
        { children := pre ++ [.dtext ph c] ++ tail, nextId := k, log := lg } =
        { children := insertAfter ph [n] (removeAfter ph (pre ++ [.dtext ph c] ++ tail)), nextId := k, log := lg } :=
      rfl
    rw [hstep, removeAfter_keep ph c tail pre hpre,
      insertAfter_at ph [n] c pre hpre]
    rfl
  | darr items =>
    have hstep : reactiveRun ph (.ok (.darr items))
        { children := pre ++ [.dtext ph c] ++ tail, nextId := k, log := lg } =
        { children := insertAfter ph (buildFragment items k).1 (removeAfter ph (pre ++ [.dtext ph c] ++ tail)), nextId := (buildFragment items k).2, log := lg } :=
      rfl
    rw [hstep, removeAfter_keep ph c tail pre hpre,
      insertAfter_at ph (buildFragment items k).1 c pre hpre]
    rfl

/-- C2 amended: after N ≥ 1 reruns whose results are nodes or arrays (not
mentioning the placeholder and with the placeholder id below the
fresh-node counter), the parent holds exactly: the untouched siblings
that precede the placeholder, the placeholder itself, and one rendering
of the last result — everything that previously followed the placeholder,
including any static sibling after the bound region, has been removed. -/
theorem reactive_child_region_rebuild (ph : Nat) (c : String)
    (r : DFnRes) (lg : List String) :
    ∀ (rs : List DFnRes) (pre tail : List DNode) (k : Nat),
    (∀ x ∈ pre, dnodeId x ≠ ph) →
    ph < k →
    (∀ x ∈ rs ++ [r], nodeLike x = true ∧ resNoPh ph x = true) →
    reactiveRuns ph ((rs ++ [r]).map Except.ok)
      { children := pre ++ [.dtext ph c] ++ tail, nextId := k, log := lg } =
    { children := pre ++ [.dtext ph c] ++ (regionOf r (regionNextId rs k)).1,
      nextId := (regionOf r (regionNextId rs k)).2, log := lg } := by
  intro rs
  induction rs with
  | nil =>
    intro pre tail k hpre hk hshape
    have h := hshape r (by simp)
    show reactiveRuns ph [Except.ok r]
      { children := pre ++ [.dtext ph c] ++ tail, nextId := k, log := lg } = _
    show reactiveRun ph (.ok r)
      { children := pre ++ [.dtext ph c] ++ tail, nextId := k, log := lg } = _
    rw [reactiveRun_replace ph c pre tail k lg r hpre h.1]
    rfl
  | cons r0 rest ih =>
    intro pre tail k hpre hk hshape
    have h0 := hshape r0 (by simp)
    show reactiveRuns ph ((rest ++ [r]).map Except.ok)
      (reactiveRun ph (.ok r0)
        { children := pre ++ [.dtext ph c] ++ tail, nextId := k, log := lg }) = _
    rw [reactiveRun_replace ph c pre tail k lg r0 hpre h0.1]
    obtain ⟨hfresh, hk'⟩ := regionOf_fresh ph r0 k hk h0.1 h0.2
    rw [ih pre (regionOf r0 k).1 (regionOf r0 k).2 hpre hk'
      (fun x hx => hshape x (by simp at hx ⊢; tauto))]
    rfl

/-- The parent of the C2 counterexample: the reactive child's placeholder
(text node 0) followed by one static sibling (node 1). -/
def c2parent : PState :=
  { children := [.dtext 0 "", .delem 1], nextId := 2, log := [] }

/-- C2 counterexample: a rerun whose result is a node removes the static
sibling (node 1) that followed the placeholder — a sibling outside the
anchor-to-next-anchor span is lost, contradicting the claim. -/
theorem reactive_child_loses_next_sibling :
    DNode.delem 1 ∈ c2parent.children ∧
    DNode.delem 1 ∉ (reactiveRun 0 (.ok (.dnode (.delem 5))) c2parent).children ∧
    (reactiveRun 0 (.ok (.dnode (.delem 5))) c2parent).children =
      [.dtext 0 "", .delem 5] := by
  refine ⟨by decide, by decide, by decide⟩

/-- C2 witness: the amended theorem applied to two reruns over a parent
with one preceding sibling and one (doomed) trailing sibling. -/
theorem reactive_child_region_rebuild_witness :
    ((∀ x ∈ [DNode.delem 7], dnodeId x ≠ 0) ∧ (0 : Nat) < 2 ∧
     (∀ x ∈ [DFnRes.dnode (.delem 5), DFnRes.darr [.diprim (.num 3), .dinode (.delem 9)]],
       nodeLike x = true ∧ resNoPh 0 x = true)) ∧
    reactiveRuns 0
      (([DFnRes.dnode (.delem 5)] ++ [DFnRes.darr [.diprim (.num 3), .dinode (.delem 9)]]).map Except.ok)
      { children := [DNode.delem 7] ++ [.dtext 0 "hi"] ++ [.delem 1],
        nextId := 2, log := [] } =
    { children := [DNode.delem 7] ++ [.dtext 0 "hi"] ++
        (regionOf (.darr [.diprim (.num 3), .dinode (.delem 9)])
          (regionNextId [DFnRes.dnode (.delem 5)] 2)).1,
      nextId := (regionOf (.darr [.diprim (.num 3), .dinode (.delem 9)])
          (regionNextId [DFnRes.dnode (.delem 5)] 2)).2,
      log := [] } :=
  ⟨⟨by decide, by decide, by decide⟩,
   reactive_child_region_rebuild 0 "hi"
     (.darr [.diprim (.num 3), .dinode (.delem 9)]) []
     [DFnRes.dnode (.delem 5)] [DNode.delem 7] [DNode.delem 1] 2
     (by decide) (by decide) (by decide)⟩

/-
Model of the element builder `html` (core.js lines 74-290) and of
`render` (lines 292-354).  Host DOM effects are reified into the returned
node description: attributes, namespaced attributes, the live `value`
property, inline styles, raw innerHTML, registered event-listener names,
and whether a `ref` was invoked or assigned.
-/

/-- A property value as the builder inspects it: null/undefined (skipped),
a primitive, a style object, a `dangerouslySetInnerHTML` object, a
function (ref callback / event handler), or an object with a `current`
field. -/
inductive PVal where
  | pnull
  | pstr (s : String)
  | pnum (n : Int)
  | pbool (b : Bool)
  | pstyle (entries : List (String × String))
  | phtml (raw : String)
  | pfun
  | pref
deriving DecidableEq

/-- JS string coercion of a property value (object/function coercions are
modelled opaquely). -/
def pvalString : PVal → String
  | .pnull => "null"
  | .pstr s => s
  | .pnum n => toString n
  | .pbool true => "true"
  | .pbool false => "false"
  | .pstyle _ => "[object Object]"
  | .phtml _ => "[object Object]"
  | .pfun => "[function]"
  | .pref => "[object Object]"

def pvalIsNull : PVal → Bool
  | .pnull => true
  | _ => false

def pvalIsBool : PVal → Bool
  | .pbool _ => true
  | _ => false

/-- The value of `propertyValue.__html` when truthy. -/
def pvalHtmlTruthy : PVal → Option String
  | .phtml h => if h == "" then none else some h
  | _ => none

def pvalStyleEntries : PVal → Option (List (String × String))
  | .pstyle es => some es
  | _ => none

/-- Model of `setAttribute`: replace an existing attribute of the same name, else
append. -/
def setAttr : List (String × String) → String → String → List (String × String)
  | [], k, v => [(k, v)]
  | (k', v') :: rest, k, v =>
    if k' == k then (k, v) :: rest else (k', v') :: setAttr rest k v

/-- Model of `removeAttribute`. -/
def removeAttr : List (String × String) → String → List (String × String)
  | [], _ => []
  | (k', v') :: rest, k =>
    if k' == k then removeAttr rest k else (k', v') :: removeAttr rest k

/-- Everything property application can do to an element. -/
structure EProps where
  attrs : List (String × String)
  attrsNS : List (String × String × String)
  valueProp : Option PVal
  styles : List (String × String)
  innerHTML : Option String
  listeners : List String
  refCalled : Bool
  refAssigned : Bool
deriving DecidableEq

def emptyProps : EProps :=
  { attrs := [], attrsNS := [], valueProp := none, styles := [],
    innerHTML := none, listeners := [], refCalled := false,
    refAssigned := false }

/-- One step of the property loop (core.js lines 132-185), translated
branch for branch in the source's priority order. -/
def applyProp (isSvg : Bool) (el : EProps) (name : String) (v : PVal) : EProps :=
  if pvalIsNull v then el
  else if name == "value" then { el with valueProp := some v }
  else if name == "className" || name == "class" then
    { el with attrs := setAttr el.attrs "class" (pvalString v) }
  else if name == "style" && (pvalStyleEntries v).isSome then
    match pvalStyleEntries v with
    | some es =>
      { el with styles := es.foldl (fun acc p => setAttr acc p.1 p.2) el.styles }
    | none => el
  else if name == "dangerouslySetInnerHTML" && (pvalHtmlTruthy v).isSome then
    match pvalHtmlTruthy v with
    | some h => { el with innerHTML := some h }
    | none => el
  else if name == "ref" then
    match v with
    | .pfun => { el with refCalled := true }
    | .pref => { el with refAssigned := true }
    | _ => el
  else if name.startsWith "on" then
    { el with listeners := el.listeners ++ [(name.drop 2).toLower] }
  else if isSvg then
    if name.contains ':' then
      match name.splitOn ":" with
      | ns :: attrName :: _ =>
        if ns == "xlink" then
          { el with attrsNS := el.attrsNS ++
              [("http://www.w3.org/1999/xlink", attrName, pvalString v)] }
        else if ns == "xml" then
          { el with attrsNS := el.attrsNS ++
              [("http://www.w3.org/XML/1998/namespace", attrName, pvalString v)] }
        else { el with attrs := setAttr el.attrs name (pvalString v) }
      | _ => { el with attrs := setAttr el.attrs name (pvalString v) }
    else { el with attrs := setAttr el.attrs name (pvalString v) }
  else if pvalIsBool v then
    match v with
    | .pbool true => { el with attrs := setAttr el.attrs name "" }
    | .pbool false => { el with attrs := removeAttr el.attrs name }
    | _ => el
  else { el with attrs := setAttr el.attrs name (pvalString v) }

/-- The fixed set of recognized SVG tag names (core.js lines 99-123). -/
def svgTags : List String :=
  ["svg", "path", "circle", "rect", "line", "polygon", "polyline",
   "ellipse", "g", "text", "defs", "filter", "mask", "marker", "pattern",
   "linearGradient", "radialGradient", "stop", "use", "clipPath",
   "textPath", "tspan", "foreignObject"]

/-- A built DOM value. -/
inductive HNode where
  | elem (svg : Bool) (tag : String) (props : EProps) (children : List HNode)
  | textNode (content : String)
  | commentNode (content : String)
  | fragmentNode (children : List HNode)

/-- An entry of an array produced by a reactive child's first run. -/
inductive HFnItem where
  | finode (n : HNode)
  | fiprim (v : JVal)
  | finull

/-- The value produced by a reactive child's callable. -/
inductive HFnRes where
  | hrnull
  | hrarr (items : List HFnItem)
  | hrnode (n : HNode)
  | hrprim (v : JVal)

/-- A child value passed to `html`: null/undefined, a DOM node, a nested
collection, a callable reactive child (modelled by its first-run
outcome), a thenable (whose resolution is asynchronous and outside the
synchronous model), or a primitive. -/
inductive HChild where
  | cnull
  | cnode (n : HNode)
  | carr (cs : List HChild)
  | cfn (firstRun : Except String HFnRes)
  | cthen
  | cprim (v : JVal)

def hfnItemNodes : HFnItem → List HNode
  | .finode n => [n]
  | .fiprim v => [.textNode (jstr v)]
  | .finull => []

/-- The nodes present after the placeholder once the reactive child's
effect has run for the first time, synchronously inside `html`
(core.js lines 202-248: the placeholder is appended, then `setEffect`
immediately runs the effect; at that moment nothing follows the
placeholder, so the remove loop is a no-op and the insert appends).  An
error caught by the effect's catch lands in the placeholder's text. -/
def firstRunNodes (firstRun : Except String HFnRes) : List HNode :=
  match firstRun with
  | .error m => [.textNode ("Error: " ++ m)]
  | .ok .hrnull => [.textNode ""]
  | .ok (.hrarr items) => .textNode "" :: concatMap hfnItemNodes items
  | .ok (.hrnode n) => [.textNode "", n]
  | .ok (.hrprim v) => [.textNode (jstr v)]

mutual

/-- The `appendChild` helper of `html` (core.js lines 188-282) for one
child: the list of nodes it leaves in the parent. -/
def appendChild : HChild → List HNode
  | .cnull => []
  | .cnode n => [n]
  | .carr cs => appendChildren cs
  | .cfn firstRun => firstRunNodes firstRun
  | .cthen => [.textNode ""]
  | .cprim v => [.textNode (jstr v)]

/-- Appending a flattened collection of children, in order. -/
def appendChildren : List HChild → List HNode
  | [] => []
  | c :: rest => appendChild c ++ appendChildren rest

end

mutual

/-- A child as the fragment branch appends it (core.js lines 87-95): this
branch has no function/thenable handling, so those values are stringified
like any other non-node value. -/
def fragChild : HChild → List HNode
  | .cnull => []
  | .cnode n => [n]
  | .carr cs => fragChildren cs
  | .cfn _ => [.textNode "[function]"]
  | .cthen => [.textNode "[object Object]"]
  | .cprim v => [.textNode (jstr v)]

/-- The fragment branch over all children. -/
def fragChildren : List HChild → List HNode
  | [] => []
  | c :: rest => fragChild c ++ fragChildren rest

end

/-- The tag argument of `html`: a string tag name, a callable component,
the fragment marker, or a falsy value. -/
inductive HTag where
  | tstr (name : String)
  | tcomp (f : List (String × PVal) → List HChild → Except String HNode)
  | tfragment
  | tfalsy

/--
Model of `html(tagName, properties, ...children)` (core.js lines 74-290).  A
callable tag is invoked with the properties and children and its result
returned verbatim; if it throws, the error is caught and replaced by a
diagnostic comment node.  The fragment marker or a falsy tag builds a
fragment of the flattened non-null children.  Otherwise an element is
built (SVG namespace iff the tag is in the recognized set), the
properties are applied in order, and each child is appended through the
dynamic child binder.  Every failure path is caught inside, so the
function is total: it always returns a node, a fragment, or a comment.
-/
def html (tag : HTag) (props : List (String × PVal)) (children : List HChild) :
    HNode :=
  match tag with
  | .tcomp f =>
    match f props children with
    | .ok r => r
    | .error m => .commentNode ("Error in component: " ++ m)
  | .tfragment => .fragmentNode (fragChildren children)
  | .tfalsy => .fragmentNode (fragChildren children)
  | .tstr name =>
    let isSvg := name ∈ svgTags
    .elem isSvg name
      (props.foldl (fun acc p => applyProp isSvg acc p.1 p.2) emptyProps)
      (appendChildren children)

/-- C7: `html` is a total function into nodes/fragments/comments (it
never throws to its caller), and component delegation is exact: a
callable tag's result is returned verbatim when it returns, and when it
throws, `html` returns a diagnostic comment node carrying the error
message. -/
theorem html_component_contract
    (f : List (String × PVal) → List HChild → Except String HNode)
    (props : List (String × PVal)) (children : List HChild) :
    (∀ m : String, f props children = .error m →
      html (.tcomp f) props children =
        .commentNode ("Error in component: " ++ m)) ∧
    (∀ r : HNode, f props children = .ok r →
      html (.tcomp f) props children = r) := by
  constructor
  · intro m hf
    show (match f props children with
      | .ok r => r
      | .error m => HNode.commentNode ("Error in component: " ++ m)) = _
    rw [hf]
  · intro r hf
    show (match f props children with
      | .ok r => r
      | .error m => HNode.commentNode ("Error in component: " ++ m)) = _
    rw [hf]

/-- C7 witness: a component that always throws yields the comment node; a
component that returns a text node yields it verbatim. -/
theorem html_component_contract_witness :
    html (.tcomp (fun _ _ => .error "boom")) [] [] =
      .commentNode ("Error in component: boom") ∧
    html (.tcomp (fun _ _ => .ok (.textNode "hi"))) [] [] = .textNode "hi" :=
  ⟨(html_component_contract (fun _ _ => .error "boom") [] []).1 "boom" rfl,
   (html_component_contract (fun _ _ => .ok (.textNode "hi")) [] []).2
     (.textNode "hi") rfl⟩

/-- The mount target: its current children and the report log.
`render` resolves a selector against the host document; resolution is
modelled by the `resolve` parameter of `render`. -/
structure RDoc where
  rootChildren : List HNode
  log : List String

/-- An entry of an array returned by a root component (flattened). -/
inductive RItem where
  | rinode (n : HNode)
  | riprim (v : JVal)
  | rinull

/-- What a root component evaluates to. -/
inductive RView where
  | vnode (n : HNode)
  | varr (items : List RItem)
  | vprim (v : JVal)
  | vnull

/-- The `component` argument of `render`: callable, or already-built
content used directly. -/
inductive RComp where
  | cfn (f : Unit → Except String RView)
  | cval (v : RView)

/-- The options bag of `render` with its defaults
(`{ clear = true, hydrate = false, beforeRender = null }`). -/
structure ROpts where
  clear : Bool
  hydrate : Bool
  beforeRender : Option (RDoc → Except String RDoc)

def defaultOpts : ROpts :=
  { clear := true, hydrate := false, beforeRender := none }

/-- The root argument: an element, or a selector string. -/
inductive RootArg where
  | relem
  | rselector (sel : String)

/-- `render`'s possible non-null return values: the diagnostic error
element, the content fragment built for an array, or the view content
itself. -/
inductive RRes where
  | rerrEl (n : HNode)
  | rfrag (ns : List HNode)
  | rview (v : RView)

/-- JS truthiness of the view content (`if (!viewContent) return null`). -/
def vfalsy : RView → Bool
  | .vnull => true
  | .vprim v => jfalsy v
  | _ => false

/-- Truthiness filter of the array branch (`if (node) { ... }`,
core.js line 333): falsy entries are skipped. -/
def ritemTruthy : RItem → Bool
  | .rinode _ => true
  | .riprim v => !(jfalsy v)
  | .rinull => false

def ritemNode : RItem → HNode
  | .rinode n => n
  | .riprim v => .textNode (jstr v)
  | .rinull => .textNode "null"

/-- The nodes the array branch appends: flattened entries, truthy only,
nodes passed through and primitives stringified. -/
def rarrNodes : List RItem → List HNode
  | [] => []
  | it :: rest =>
    if ritemTruthy it then ritemNode it :: rarrNodes rest else rarrNodes rest

/-- The diagnostic element built when the component function throws
(core.js lines 321-324); `className = "olova-error"` and
`textContent = ...` are modelled as the class attribute and a single text
child. -/
def renderErrorNode (m : String) : HNode :=
  .elem false "div" { emptyProps with attrs := [("class", "olova-error")] }
    [.textNode ("Render Error: " ++ m)]

/-- Body of `render` after the root has been resolved (core.js lines 302-353):
clear the root unless hydrating, run the `beforeRender` hook (its failure
reported only), evaluate the component (a failure is reported and
rendered as the diagnostic element), return null for falsy content,
append an array as a truthiness-filtered fragment, else append the node
or stringified primitive and return the view content. -/
def renderGo (component : RComp) (opts : ROpts) (d : RDoc) :
    Option RRes × RDoc :=
  let d1 := if opts.clear && !opts.hydrate then { d with rootChildren := [] } else d
  let d2 := match opts.beforeRender with
    | some hook =>
      match hook d1 with
      | .ok d' => d'
      | .error m =>
        { d1 with log := d1.log ++ ["Error in beforeRender hook: " ++ m] }
    | none => d1
  match (match component with
         | .cfn f => f ()
         | .cval v => Except.ok v) with
  | .error m =>
    (some (.rerrEl (renderErrorNode m)),
     { d2 with rootChildren := d2.rootChildren ++ [renderErrorNode m],
               log := d2.log ++ ["Error rendering component: " ++ m] })
  | .ok v =>
    if vfalsy v then (none, d2)
    else
      match v with
      | .varr items =>
        (some (.rfrag (rarrNodes items)),
         { d2 with rootChildren := d2.rootChildren ++ rarrNodes items })
      | .vnode n =>
        (some (.rview (.vnode n)),
         { d2 with rootChildren := d2.rootChildren ++ [n] })
      | .vprim p =>
        (some (.rview (.vprim p)),
         { d2 with rootChildren := d2.rootChildren ++ [.textNode (jstr p)] })
      | .vnull => (none, d2)

/-- Model of `render(component, root, options)` (core.js lines 292-354).  A
selector root that does not resolve is reported and aborts the call
before anything is touched; the logged message interpolates the already
reassigned root variable, which is null at that point, hence the literal
"null" in the report. -/
def render (resolve : String → Bool) (component : RComp) (root : RootArg)
    (opts : ROpts) (d : RDoc) : Option RRes × RDoc :=
  match root with
  | .relem => renderGo component opts d
  | .rselector sel =>
    if resolve sel then renderGo component opts d
    else
      (none,
       { d with log := d.log ++ ["Cannot find element matching selector: null"] })

/-- C9: when the root selector resolves to no element, `render` reports
the failure and returns without mounting: the result is null, the
document's nodes are untouched (only the log grows), and the component is
never invoked — the call's outcome is the same for every component. -/
theorem render_selector_failure (resolve : String → Bool) (component : RComp)
    (opts : ROpts) (d : RDoc) (sel : String)
    (hsel : resolve sel = false) :
    render resolve component (.rselector sel) opts d =
      (none,
       { d with log := d.log ++ ["Cannot find element matching selector: null"] }) ∧
    (render resolve component (.rselector sel) opts d).2.rootChildren =
      d.rootChildren ∧
    (∀ c2 : RComp, render resolve component (.rselector sel) opts d =
      render resolve c2 (.rselector sel) opts d) := by
  have hgen : ∀ c : RComp, render resolve c (.rselector sel) opts d =
      (none,
       { d with log := d.log ++ ["Cannot find element matching selector: null"] }) := by
    intro c
    show (if resolve sel = true then renderGo c opts d
      else (none,
        { d with log := d.log ++ ["Cannot find element matching selector: null"] })) = _
    rw [hsel, if_neg (by simp)]
  refine ⟨hgen component, by rw [hgen component], fun c2 => by
    rw [hgen component, hgen c2]⟩

/-- C9 witness: the theorem applied with a resolver that never matches. -/
theorem render_selector_failure_witness :
    ((fun _ : String => false) "#app" = false) ∧
    (render (fun _ => false) (.cval .vnull) (.rselector "#app") defaultOpts
        { rootChildren := [.textNode "keep"], log := [] } =
      (none,
       { rootChildren := [.textNode "keep"],
         log := [] ++ ["Cannot find element matching selector: null"] }) ∧
    (render (fun _ => false) (.cval .vnull) (.rselector "#app") defaultOpts
        { rootChildren := [.textNode "keep"], log := [] }).2.rootChildren =
      [.textNode "keep"] ∧
    (∀ c2 : RComp, render (fun _ => false) (.cval .vnull) (.rselector "#app")
        defaultOpts { rootChildren := [.textNode "keep"], log := [] } =
      render (fun _ => false) c2 (.rselector "#app") defaultOpts
        { rootChildren := [.textNode "keep"], log := [] })) :=
  ⟨rfl, render_selector_failure (fun _ => false) (.cval .vnull) defaultOpts
    { rootChildren := [.textNode "keep"], log := [] } "#app" rfl⟩

/-- C8 counterexample: a component whose value is the primitive 0 (falsy)
makes `render` return null with nothing appended — the root, cleared by
the default options, stays empty, so the stringified text node "0" the
claim promises is never mounted. -/
theorem render_falsy_prim_returns_null :
    (render (fun _ => true) (.cval (.vprim (.num 0))) .relem defaultOpts
        { rootChildren := [], log := [] }).1 = none ∧
    (render (fun _ => true) (.cval (.vprim (.num 0))) .relem defaultOpts
        { rootChildren := [], log := [] }).2.rootChildren = [] :=
  ⟨rfl, rfl⟩

theorem render_comp_fn_eq (resolve : String → Bool)
    (f : Unit → Except String RView) (v : RView) (root : RootArg)
    (opts : ROpts) (d : RDoc) (hf : f () = .ok v) :
    render resolve (.cfn f) root opts d = render resolve (.cval v) root opts d := by
  cases root with
  | relem =>
    show renderGo (.cfn f) opts d = renderGo (.cval v) opts d
    unfold renderGo
    dsimp only
    rw [hf]
  | rselector sel =>
    show (if resolve sel = true then renderGo (.cfn f) opts d else _) =
      (if resolve sel = true then renderGo (.cval v) opts d else _)
    by_cases h : resolve sel = true
    · rw [if_pos h, if_pos h]
      show renderGo (.cfn f) opts d = renderGo (.cval v) opts d
      unfold renderGo
      dsimp only
      rw [hf]
    · rw [if_neg h, if_neg h]

/-- C8 amended: for a truthy primitive result, `render` appends the
primitive stringified as a text node to the (cleared) root and returns
the view content, both for a direct value and for a component function
returning it; a falsy primitive result instead returns null and appends
nothing (see the counterexample). -/
theorem render_truthy_prim_appends (resolve : String → Bool) (p : JVal)
    (d : RDoc) (hp : jfalsy p = false) :
    render resolve (.cval (.vprim p)) .relem defaultOpts d =
      (some (.rview (.vprim p)),
       { rootChildren := [HNode.textNode (jstr p)], log := d.log }) ∧
    (∀ f : Unit → Except String RView, f () = .ok (.vprim p) →
      render resolve (.cfn f) .relem defaultOpts d =
        (some (.rview (.vprim p)),
         { rootChildren := [HNode.textNode (jstr p)], log := d.log })) := by
  have hvf : vfalsy (RView.vprim p) = false := by
    show jfalsy p = false
    exact hp
  have hval : render resolve (.cval (.vprim p)) .relem defaultOpts d =
      (some (.rview (.vprim p)),
       { rootChildren := [HNode.textNode (jstr p)], log := d.log }) := by
    show (if vfalsy (RView.vprim p) = true
      then ((none : Option RRes), ({ d with rootChildren := [] } : RDoc))
      else (some (.rview (.vprim p)),
        { rootChildren := [HNode.textNode (jstr p)], log := d.log })) = _
    rw [hvf, if_neg (by simp)]
  refine ⟨hval, fun f hf => ?_⟩
  rw [render_comp_fn_eq resolve f (.vprim p) .relem defaultOpts d hf]
  exact hval

/-- C8 witness: the amended theorem applied at the truthy primitive 3,
with both component forms. -/
theorem render_truthy_prim_appends_witness :
    (jfalsy (.num 3) = false) ∧
    (render (fun _ => true) (.cval (.vprim (.num 3))) .relem defaultOpts
        { rootChildren := [.textNode "old"], log := [] } =
      (some (.rview (.vprim (.num 3))),
       { rootChildren := [HNode.textNode (jstr (.num 3))], log := [] }) ∧
    (∀ f : Unit → Except String RView, f () = .ok (.vprim (.num 3)) →
      render (fun _ => true) (.cfn f) .relem defaultOpts
          { rootChildren := [.textNode "old"], log := [] } =
        (some (.rview (.vprim (.num 3))),
         { rootChildren := [HNode.textNode (jstr (.num 3))], log := [] }))) :=
  ⟨rfl, render_truthy_prim_appends (fun _ => true) (.num 3)
    { rootChildren := [.textNode "old"], log := [] } rfl⟩

end Olova
